import Mathlib

/-!
Verification development for the termissh terminal session bridge.

The Rust sources are embedded shallowly:
* text is modelled as Lean `String`; the bytes of a piece of text are
  modelled as the list of its character codes (`strBytes`), which agrees
  with UTF-8 on the ASCII data all properties below are concerned with;
* lowercasing is modelled character-wise (`String.toLower`), which agrees
  with Rust `str::to_lowercase` on ASCII;
* the vt100 screen interpreter is treated as an external component (as the
  specification prescribes): a parser is modelled by the byte stream fed to
  it, plus the alternate-screen flag carried as abstract state;
* machine integers (`u8`, byte values) are modelled as `Nat`.
-/

namespace Termissh

/-- Bytes of a piece of text, modelled as the list of character codes. -/
def strBytes (s : String) : List Nat := s.data.map Char.toNat

/-- Model of `config::CustomCommand` (an alias: trigger plus script). -/
structure CustomCommand where
  trigger : String
  script : String
  deriving Repr, DecidableEq

/-- Model of the input/suggestion-relevant fields of `app::TerminalTab`.
Pure view fields (label, host, ftp state, output text, ...) are omitted. -/
structure TerminalTab where
  id : Nat
  connected : Bool
  font_size : Int
  search_active : Bool
  search_query : String
  quick_cmds_visible : Bool
  input_buffer : String
  command_history : List String
  suggestion_index : Option Nat
  deriving Repr, DecidableEq

/-- Port of the `BUILT_IN_SUGGESTIONS` table from `app.rs`. -/
def builtInSuggestions : List String :=
  ["nano", "vim", "vi", "nvim", "emacs",
   "ls", "la", "ll", "cd", "cp", "mv", "rm", "mkdir", "touch", "cat", "less",
   "head", "tail", "grep", "find", "chmod", "chown", "ln", "stat", "wc", "sort", "uniq",
   "ps", "top", "htop", "kill", "killall", "jobs", "bg", "fg", "nohup",
   "ssh", "scp", "rsync", "curl", "wget", "ping", "netstat", "ss", "ip",
   "apt", "apt-get", "yum", "dnf", "pacman", "pip", "pip3", "npm", "yarn", "cargo",
   "git", "docker", "kubectl", "systemctl", "service", "journalctl",
   "df", "du", "free", "uptime", "who", "whoami", "uname", "hostname",
   "tar", "zip", "unzip", "gzip", "gunzip", "xz",
   "python", "python3", "node", "ruby", "php", "bash", "sh", "zsh", "fish",
   "sudo", "su", "exit", "logout", "clear", "history", "env", "export", "echo",
   "source", "which", "whereis", "man", "alias", "unset", "set",
   "mysql", "psql", "redis-cli", "mongo"]

/-- The push pattern of the trigger and built-in loops of
`compute_suggestions`: stop at 8 suggestions overall, then push each
candidate that matches and is not already included. -/
def capDedupPush (ok : String → Bool) (acc : List String) (cands : List String) : List String :=
  cands.foldl
    (fun a c =>
      if a.length ≥ 8 then a
      else if ok c && !(a.contains c) then a ++ [c] else a) acc

/-- Port of `compute_suggestions` from `app.rs`: history matches (most recent
first, up to 4), then alias triggers, then built-ins, capped at 8 overall. -/
def computeSuggestions (tab : TerminalTab) (alias_triggers : List String) : List String :=
  if tab.input_buffer = "" then []
  else
    let buf_lower := tab.input_buffer.toLower
    let fromHist : List String :=
      ((tab.command_history.reverse.filter
        (fun cmd => cmd.toLower.startsWith buf_lower && cmd.toLower != buf_lower)).take 4)
    let withTrig : List String :=
      capDedupPush
        (fun trigger => trigger.toLower.startsWith buf_lower && trigger != tab.input_buffer)
        fromHist alias_triggers
    capDedupPush
      (fun builtin => builtin.toLower.startsWith buf_lower && builtin != tab.input_buffer)
      withTrig builtInSuggestions

/-- Dedup-push fold used to phrase the suggestion list the way the spec
describes it: append each candidate passing `ok` that is not already
included, with no cap. -/
def specDedupPush (ok : String → Bool) (acc : List String) (cands : List String) : List String :=
  cands.foldl (fun a c => if ok c && !(a.contains c) then a ++ [c] else a) acc

/-- The suggestion list as the spec words it: history part (up to 4, most
recent first), then alias triggers not already included, then built-ins not
already included, the whole list capped at 8. -/
def computeSuggestionsSpec (tab : TerminalTab) (alias_triggers : List String) : List String :=
  if tab.input_buffer = "" then []
  else
    let buf_lower := tab.input_buffer.toLower
    let fromHist : List String :=
      ((tab.command_history.reverse.filter
        (fun cmd => cmd.toLower.startsWith buf_lower && cmd.toLower != buf_lower)).take 4)
    let okTrig := fun (t : String) =>
      t.toLower.startsWith buf_lower && t != tab.input_buffer
    let okBuiltin := fun (b : String) =>
      b.toLower.startsWith buf_lower && b != tab.input_buffer
    ((specDedupPush okBuiltin (specDedupPush okTrig fromHist alias_triggers)
        builtInSuggestions).take 8)

/-! ## Screen renderer (`build_terminal_spans`) -/

/-- Model of `iced::Color`: colours only ever arise from `from_rgb8` byte
triples or the caller-supplied default, so a colour is modelled by its byte
components (alpha fixed); only equality of colours matters here. -/
structure Color where
  r : Nat
  g : Nat
  b : Nat
  deriving Repr, DecidableEq

/-- Model of `vt100::Color`. -/
inductive VtColor where
  | default
  | rgb (r g b : Nat)
  | idx (i : Nat)
  deriving Repr, DecidableEq

/-- Port of `ansi_index_to_color` from `app.rs` (index `i` is a `u8`). -/
def ansiIndexToColor (i : Nat) : Color :=
  let ansi16 : List (Nat × Nat × Nat) :=
    [(0, 0, 0), (205, 49, 49), (13, 188, 121), (229, 229, 16),
     (36, 114, 200), (188, 63, 188), (17, 168, 205), (229, 229, 229),
     (102, 102, 102), (241, 76, 76), (35, 209, 139), (245, 245, 67),
     (59, 142, 234), (214, 112, 214), (41, 184, 219), (255, 255, 255)]
  if i < 16 then
    match ansi16.get? i with
    | some (r, g, b) => ⟨r, g, b⟩
    | none => ⟨0, 0, 0⟩
  else if 16 ≤ i ∧ i ≤ 231 then
    let v := i - 16
    let r := v / 36
    let g := (v % 36) / 6
    let b := v % 6
    let to255 := fun (n : Nat) => if n = 0 then 0 else 55 + n * 40
    ⟨to255 r, to255 g, to255 b⟩
  else
    let gray := 8 + (i - 232) * 10
    ⟨gray, gray, gray⟩

/-- Port of `vt_color_to_iced` from `app.rs`. -/
def vtColorToIced (c : VtColor) (default_color : Color) : Color :=
  match c with
  | .default => default_color
  | .rgb r g b => ⟨r, g, b⟩
  | .idx i => ansiIndexToColor i

/-- Model of one `vt100` screen cell as read by the renderer. -/
structure Cell where
  contents : String
  fgcolor : VtColor
  bgcolor : VtColor
  bold : Bool
  italic : Bool
  underline : Bool
  wide_continuation : Bool
  deriving Repr, DecidableEq

/-- Model of a screen snapshot: a `rows` by `cols` grid of cells. -/
structure Screen where
  rows : Nat
  cols : Nat
  cells : List (List Cell)
  deriving Repr

/-- Cell lookup, `screen.cell(row, col)` in the source. -/
def Screen.cellAt (s : Screen) (row col : Nat) : Option Cell :=
  (s.cells.get? row).bind (fun r => r.get? col)

/-- Well-formedness of a snapshot: the grid really is `rows` by `cols`
(always true of a `vt100` screen). -/
def Screen.WF (s : Screen) : Prop :=
  s.cells.length = s.rows ∧ ∀ row ∈ s.cells, row.length = s.cols

instance (s : Screen) : Decidable s.WF := by
  unfold Screen.WF; infer_instance

/-- Port of `TermSpanStyle` from `app.rs`. -/
structure TermSpanStyle where
  fg : Color
  bg : Option Color
  bold : Bool
  italic : Bool
  underline : Bool
  deriving Repr, DecidableEq

/-- Model of `iced::widget::text::Span` restricted to the attributes the
renderer and the search highlighter set. -/
structure Span where
  text : String
  color : Option Color
  background : Option Color
  bold : Bool
  italic : Bool
  underline : Bool
  deriving Repr, DecidableEq

/-- `Span::new(t)`: a span with no styling attached. -/
def Span.plain (t : String) : Span := ⟨t, none, none, false, false, false⟩

/-- `Span::new(t).color(c)`: a span with only a text colour. -/
def Span.colored (t : String) (c : Color) : Span := ⟨t, some c, none, false, false, false⟩

/-- Port of `span_from_style` from `app.rs`. -/
def spanFromStyle (t : String) (st : TermSpanStyle) : Span :=
  ⟨t, some st.fg, st.bg, st.bold, st.italic, st.underline⟩

/-- Effective style of a cell, as computed inline in `build_terminal_spans`. -/
def cellStyle (default_color : Color) (cell : Cell) : TermSpanStyle :=
  { fg := vtColorToIced cell.fgcolor default_color
    bg := match cell.bgcolor with
          | .default => none
          | c => some (vtColorToIced c default_color)
    bold := cell.bold
    italic := cell.italic
    underline := cell.underline }

/-- Accumulator of the renderer loop: emitted spans, the text and style of
the run currently being built. -/
structure RenderState where
  spans : List Span
  current_text : String
  current_style : TermSpanStyle
  deriving Repr

/-- Port of the per-cell body of `build_terminal_spans`: skip continuation
cells, map empty contents to a space, flush the current run on a style
change, then append the cell's content. -/
def processCell (default_color : Color) (st : RenderState) (cell? : Option Cell) :
    RenderState :=
  match cell? with
  | none => st
  | some cell =>
    if cell.wide_continuation then st
    else
      let content := if cell.contents = "" then " " else cell.contents
      let style := cellStyle default_color cell
      let st1 :=
        if style ≠ st.current_style ∧ st.current_text ≠ "" then
          { st with
              spans := st.spans ++ [spanFromStyle st.current_text st.current_style]
              current_text := "" }
        else st
      { st1 with current_style := style, current_text := st1.current_text ++ content }

/-- Port of the per-row body of `build_terminal_spans`: process the row's
cells, then append a newline to the current run unless this is the last row. -/
def processRow (default_color : Color) (screen : Screen) (row : Nat)
    (st : RenderState) : RenderState :=
  let st :=
    (List.range screen.cols).foldl
      (fun st col => processCell default_color st (screen.cellAt row col)) st
  if row < screen.rows - 1 then { st with current_text := st.current_text ++ "\n" }
  else st

/-- Port of `build_terminal_spans` from `app.rs`. -/
def buildTerminalSpans (screen : Screen) (default_color : Color) : List Span :=
  let st0 : RenderState := ⟨[], "", ⟨default_color, none, false, false, false⟩⟩
  let st :=
    (List.range screen.rows).foldl
      (fun st row => processRow default_color screen row st) st0
  let spans :=
    if st.current_text ≠ "" then
      st.spans ++ [spanFromStyle st.current_text st.current_style]
    else st.spans
  if spans = [] then [Span.plain " "] else spans

/-- Text contributed by one cell: continuation cells are skipped, empty
contents render as one space. -/
def cellText (c : Cell) : String :=
  if c.wide_continuation then "" else if c.contents = "" then " " else c.contents

/-- Text of the first `k` cells of one screen row, as the renderer sees it. -/
def rowTextUpTo (screen : Screen) (row : Nat) : Nat → String
  | 0 => ""
  | k + 1 =>
    rowTextUpTo screen row k ++
      (match screen.cellAt row k with
       | none => ""
       | some c => cellText c)

/-- Text of one screen row, as the renderer sees it. -/
def rowText (screen : Screen) (row : Nat) : String :=
  rowTextUpTo screen row screen.cols

/-- Text of the first `k` screen rows with a newline inserted after every
row but the last of the screen. -/
def screenTextUpTo (screen : Screen) : Nat → String
  | 0 => ""
  | k + 1 =>
    screenTextUpTo screen k ++ rowText screen k ++
      (if k < screen.rows - 1 then "\n" else "")

/-- Full screen text with a newline inserted between consecutive rows and no
newline after the last row (the comparison target the spec describes). -/
def screenText (screen : Screen) : String :=
  screenTextUpTo screen screen.rows

/-- Style attributes of a span (everything but the text). -/
def Span.styleOf (sp : Span) : Option Color × Option Color × Bool × Bool × Bool :=
  (sp.color, sp.background, sp.bold, sp.italic, sp.underline)

/-- Style attributes recorded by `spanFromStyle` for a given run style. -/
def styleProj (st : TermSpanStyle) : Option Color × Option Color × Bool × Bool × Bool :=
  (some st.fg, st.bg, st.bold, st.italic, st.underline)

/-- Invariant of the renderer loop: the emitted runs already alternate in
style, and while a run is being built the last emitted run has a different
style from the current one. -/
def RenderInv (st : RenderState) : Prop :=
  st.spans.Chain' (fun a b => a.styleOf ≠ b.styleOf) ∧
  ∀ l, st.spans.getLast? = some l →
    st.current_text ≠ "" ∧ l.styleOf ≠ styleProj st.current_style

/-! ## Search highlighting (`apply_search_highlight`) -/

/-- Index of the first occurrence of `pat` in `l` (Rust `str::find`),
on the character-list model of strings. -/
def findSub (pat : List Char) : List Char → Option Nat
  | [] => if pat.isPrefixOf ([] : List Char) then some 0 else none
  | c :: t =>
    if pat.isPrefixOf (c :: t) then some 0
    else (findSub pat t).map (· + 1)

/-- Whether `l` contains `pat` as a contiguous sub-sequence
(Rust `str::contains`). -/
def containsSub (pat l : List Char) : Bool := (findSub pat l).isSome

/-- Port of the re-splitting loop of `apply_search_highlight`: walk the
remaining original text `text` and its lowercase form `tl` in lockstep,
emitting unmatched stretches with the base colour and matches with the
highlight colour. `fuel` bounds the recursion; it is always called with
more fuel than there are characters. -/
def hlLoop (hc base : Color) (ql : List Char) :
    Nat → List Char → List Char → List Span × Nat
  | 0, _, _ => ([], 0)
  | _ + 1, [], _ => ([], 0)
  | fuel + 1, text@(_ :: _), tl =>
    match findSub ql tl with
    | some rel =>
      let endIdx := rel + ql.length
      if endIdx > text.length then ([Span.colored (String.mk text) base], 0)
      else
        let pre :=
          if 0 < rel then [Span.colored (String.mk (text.take rel)) base] else []
        let matched := [Span.colored (String.mk ((text.drop rel).take ql.length)) hc]
        let rest := hlLoop hc base ql fuel (text.drop endIdx) (tl.drop endIdx)
        (pre ++ matched ++ rest.1, rest.2 + 1)
    | none => ([Span.colored (String.mk text) base], 0)

/-- Highlighting of one span: spans not containing the query pass through
unchanged, otherwise the span is re-split by `hlLoop`. -/
def hlSpan (hc dc : Color) (ql : List Char) (sp : Span) : List Span × Nat :=
  let text := sp.text.data
  let tl := text.map Char.toLower
  let base := sp.color.getD dc
  if containsSub ql tl then hlLoop hc base ql (text.length + 1) text tl
  else ([sp], 0)

/-- Port of `apply_search_highlight` from `app.rs`. -/
def applySearchHighlight (spans : List Span) (query : String)
    (highlight_color default_color : Color) : List Span × Nat :=
  if query = "" then (spans, 0)
  else
    let ql := query.data.map Char.toLower
    spans.foldl
      (fun acc sp =>
        let r := hlSpan highlight_color default_color ql sp
        (acc.1 ++ r.1, acc.2 + r.2)) ([], 0)

/-- Number of non-overlapping left-to-right occurrences of `pat` in `l`
(the spec-side count of matches). -/
def countOcc (pat : List Char) : List Char → Nat
  | [] => 0
  | c :: t =>
    if h : pat ≠ [] ∧ pat.isPrefixOf (c :: t) then
      1 + countOcc pat ((c :: t).drop pat.length)
    else
      countOcc pat t
termination_by l => l.length
decreasing_by
  · simp only [List.length_drop, List.length_cons]
    have : 1 ≤ pat.length := by
      cases hp : pat with
      | nil => exact absurd hp h.1
      | cons a l => simp
    omega
  · simp

/-- The alternating unmatched/matched structure a re-split run has
(the spec-side description of the highlighter's output): a sequence of
blocks, each an optional non-empty unmatched stretch carrying the base
colour whose lowercase form is free of the query, followed by a matched
sub-run carrying the highlight colour whose lowercase form is exactly the
query, with at most one trailing unmatched stretch. -/
inductive AltRuns (hc base : Color) (ql : List Char) : List Span → Prop where
  | nil : AltRuns hc base ql []
  | tail (t : List Char) (hne : t ≠ [])
      (hno : containsSub ql (t.map Char.toLower) = false) :
      AltRuns hc base ql [Span.colored (String.mk t) base]
  | block (pre m : List Char) (rest : List Span)
      (hm : m.map Char.toLower = ql)
      (hno : containsSub ql (pre.map Char.toLower) = false)
      (hrest : AltRuns hc base ql rest) :
      AltRuns hc base ql
        ((if 0 < pre.length then [Span.colored (String.mk pre) base] else [])
          ++ Span.colored (String.mk m) hc :: rest)

/-! ## Session runtime, application state and `App::update` handlers -/

/-- Model of `TerminalRuntime`: the spawned child is modelled by the result
its `try_wait` would report this tick (`child_exit`), the mpsc channel by
the queued chunks plus the senders-gone flag, and the vt100 parser by the
byte stream fed to it so far plus the alternate-screen flag (the
interpreter itself is external to this core). -/
structure Runtime where
  child_exit : Option String
  chan : List (List Nat)
  chan_disconnected : Bool
  parser_fed : List Nat
  alt_screen : Bool
  deriving Repr, DecidableEq

/-- Model of the bridge-relevant fields of `App`. The modal dialog is
modelled by whether one is open (`self.dialog.is_some()`). -/
structure AppState where
  terminal_tabs : List TerminalTab
  active_tab : Option Nat
  terminal_runtime : List (Nat × Runtime)
  custom_commands : List CustomCommand
  dialog_open : Bool
  scroll_mode : Bool
  scroll_position : ℚ
  deriving Repr, DecidableEq

/-- Update the element at index `i` (no-op when out of range), mirroring
`get_mut`/indexed assignment on a `Vec`. -/
def listModify (l : List α) (i : Nat) (f : α → α) : List α :=
  match l, i with
  | [], _ => []
  | x :: xs, 0 => f x :: xs
  | x :: xs, n + 1 => x :: listModify xs n f

/-- Lookup in the runtime map (`HashMap::get`): the value stored under a
key. -/
def assocLookup (l : List (Nat × Runtime)) (id : Nat) : Option Runtime :=
  match l with
  | [] => none
  | (k, v) :: t => if k = id then some v else assocLookup t id

/-- Insert-or-replace in the runtime map (`HashMap::insert` semantics on an
existing key; the model only ever updates existing keys). -/
def assocUpdate (l : List (Nat × Runtime)) (id : Nat) (rt : Runtime) :
    List (Nat × Runtime) :=
  l.map (fun p => if p.1 = id then (id, rt) else p)

/-- Removal from the runtime map (`HashMap::remove`). -/
def assocRemove (l : List (Nat × Runtime)) (id : Nat) : List (Nat × Runtime) :=
  l.filter (fun p => p.1 ≠ id)

/-- A byte write to one session's relay stdin: session id and payload. -/
abbrev SentBytes := List (Nat × List Nat)

/-- Whether a list of bytes decodes as text (`std::str::from_utf8(..).is_ok()`
in the char-code model: every code is a valid scalar value). -/
def decodableText (bytes : List Nat) : Bool :=
  bytes.all (fun b => b < 0xd800 ∨ (0xe000 ≤ b ∧ b < 0x110000))

/-- Decoded text of a byte list in the char-code model. -/
def decodeText (bytes : List Nat) : String :=
  String.mk (bytes.map Char.ofNat)

/-- The bounded history append of the Enter branch of
`Message::TerminalSendBytes`: push, then drop the oldest entry when the
list exceeds 50. -/
def pushHistory (history : List String) (cmd : String) : List String :=
  if (history ++ [cmd]).length > 50 then (history ++ [cmd]).drop 1
  else history ++ [cmd]

/-- Phase 1 of `Message::TerminalSendBytes` restricted to the non-Enter
byte-tracking rules (the `else` branch over the byte sequence). -/
def trackBytes (bytes : List Nat) (tab : TerminalTab) : TerminalTab :=
  match bytes with
  | [b] =>
    if b = 127 then
      { tab with input_buffer := tab.input_buffer.dropRight 1, suggestion_index := none }
    else if b = 3 ∨ b = 21 ∨ b = 27 then
      { tab with input_buffer := "", suggestion_index := none }
    else if b ≥ 32 then
      { tab with input_buffer := tab.input_buffer.push (Char.ofNat b)
                 suggestion_index := none }
    else tab
  | b :: _ :: _ =>
    if b = 27 then
      { tab with input_buffer := "", suggestion_index := none }
    else if bytes.all (fun x => x ≥ 32) then
      if decodableText bytes then
        { tab with input_buffer := tab.input_buffer ++ decodeText bytes
                   suggestion_index := none }
      else tab
    else tab
  | [] => tab

/-- Phase 1 of `Message::TerminalSendBytes`: track the local input buffer
and intercept custom-command aliases on Enter, yielding the updated state
and the (possibly replaced) outgoing bytes. -/
def sendBytesPhase1 (s : AppState) (bytes0 : List Nat) : AppState × List Nat :=
  match s.active_tab with
  | none => (s, bytes0)
  | some active =>
    if bytes0 = [13] then
      let buffer :=
        ((s.terminal_tabs.get? active).map (fun t => t.input_buffer.trim)).getD ""
      let afterHistory : AppState × List Nat :=
        if buffer ≠ "" then
          match s.custom_commands.find? (fun c => c.trigger = buffer) with
          | some cc => (s, 21 :: (strBytes cc.script ++ [13]))
          | none =>
            ({ s with terminal_tabs :=
                listModify s.terminal_tabs active (fun tab =>
                  if tab.command_history.getLast? ≠ some buffer then
                    { tab with command_history :=
                        pushHistory tab.command_history buffer }
                  else tab) }, bytes0)
        else (s, bytes0)
      let s2 := afterHistory.1
      let clearBuf := fun (tab : TerminalTab) => { tab with input_buffer := "" }
      ({ s2 with terminal_tabs := listModify s2.terminal_tabs active clearBuf },
       afterHistory.2)
    else
      ({ s with terminal_tabs := listModify s.terminal_tabs active (trackBytes bytes0) },
       bytes0)

/-- Phase 2 of `Message::TerminalSendBytes`: write the outgoing bytes to
the active session's relay stdin (when a runtime exists) and snap the
scroll position to the bottom unless in alternate screen or scroll mode. -/
def sendBytesPhase2 (p : AppState × List Nat) : AppState × SentBytes :=
  let s1 := p.1
  let bytes := p.2
  match s1.active_tab with
  | none => (s1, [])
  | some active =>
    match s1.terminal_tabs.get? active with
    | none => (s1, [])
    | some tab =>
      match assocLookup s1.terminal_runtime tab.id with
      | none => (s1, [])
      | some rt =>
        let snap := !rt.alt_screen && !s1.scroll_mode
        (if snap then { s1 with scroll_position := 1 } else s1, [(tab.id, bytes)])

/-- Port of `Message::TerminalSendBytes`: the modal-dialog guard, then
phase 1 and phase 2. -/
def handleSendBytes (s : AppState) (bytes0 : List Nat) : AppState × SentBytes :=
  if s.dialog_open then (s, [])
  else sendBytesPhase2 (sendBytesPhase1 s bytes0)

/-- Port of `Message::TerminalSuggestionAccept`: set the local buffer to the
suggestion, clear the selection, and send clear-line (0x15) plus the
suggestion text — with no carriage return — to the session's stdin. -/
def handleSuggestionAccept (s : AppState) (cmd : String) : AppState × SentBytes :=
  match s.active_tab with
  | none => (s, [])
  | some i =>
    let tabs' := listModify s.terminal_tabs i
      (fun t => { t with input_buffer := cmd, suggestion_index := none })
    let s' := { s with terminal_tabs := tabs' }
    let sent : SentBytes :=
      match tabs'.get? i with
      | none => []
      | some tab =>
        match assocLookup s'.terminal_runtime tab.id with
        | none => []
        | some _ => [(tab.id, 21 :: strBytes cmd)]
    (s', sent)

/-- Port of `Message::TerminalSuggestionMove`. -/
def handleSuggestionMove (s : AppState) (delta : Int) : AppState :=
  match s.active_tab with
  | none => s
  | some i =>
    let triggers := s.custom_commands.map (·.trigger)
    match s.terminal_tabs.get? i with
    | none => s
    | some tab =>
      let suggestions := computeSuggestions tab triggers
      if suggestions.isEmpty then s
      else
        let new_idx : Option Nat :=
          match tab.suggestion_index with
          | none => if delta > 0 then some 0 else none
          | some idx =>
            let next : Int := (idx : Int) + delta
            if next < 0 then none
            else some (min next.toNat (suggestions.length - 1))
        { s with terminal_tabs :=
            listModify s.terminal_tabs i (fun t => { t with suggestion_index := new_idx }) }

/-- Port of `Message::TerminalScrollBy`. -/
def handleScrollBy (s : AppState) (delta : ℚ) : AppState :=
  { s with scroll_position := max 0 (min 1 (s.scroll_position + delta)) }

/-- Port of `Message::TerminalSearchToggle`. -/
def handleSearchToggle (s : AppState) : AppState :=
  match s.active_tab with
  | none => s
  | some i =>
    let f := fun (t : TerminalTab) =>
      if t.search_active then { t with search_active := false, search_query := "" }
      else { t with search_active := true }
    { s with terminal_tabs := listModify s.terminal_tabs i f }

/-- Port of `Message::TerminalSearchClose`. -/
def handleSearchClose (s : AppState) : AppState :=
  match s.active_tab with
  | none => s
  | some i =>
    let f := fun (t : TerminalTab) => { t with search_active := false, search_query := "" }
    { s with terminal_tabs := listModify s.terminal_tabs i f }

/-- Port of `Message::TerminalFontSizeInc` (sizes are whole points here). -/
def handleFontSizeInc (s : AppState) : AppState :=
  match s.active_tab with
  | none => s
  | some i =>
    let f := fun (t : TerminalTab) => { t with font_size := min (t.font_size + 1) 28 }
    { s with terminal_tabs := listModify s.terminal_tabs i f }

/-- Port of `Message::TerminalFontSizeDec`. -/
def handleFontSizeDec (s : AppState) : AppState :=
  match s.active_tab with
  | none => s
  | some i =>
    let f := fun (t : TerminalTab) => { t with font_size := max (t.font_size - 1) 8 }
    { s with terminal_tabs := listModify s.terminal_tabs i f }

/-- Port of `Message::TerminalFontSizeReset`. -/
def handleFontSizeReset (s : AppState) : AppState :=
  match s.active_tab with
  | none => s
  | some i =>
    let f := fun (t : TerminalTab) => { t with font_size := 13 }
    { s with terminal_tabs := listModify s.terminal_tabs i f }

/-! ## Keyboard input -/

/-- The named keys `map_key_to_bytes` distinguishes; all other named keys
fall into `other` and map to no bytes. -/
inductive NamedKey where
  | enter | tab | backspace | escape
  | arrowUp | arrowDown | arrowRight | arrowLeft
  | home | endKey | delete | insert | pageUp | pageDown | space | other
  deriving Repr, DecidableEq

/-- Model of `iced::keyboard::Key`. -/
inductive Key where
  | named (n : NamedKey)
  | character (s : String)
  deriving Repr, DecidableEq

/-- Model of the keyboard modifiers the handlers read. -/
structure Modifiers where
  control : Bool
  alt : Bool
  deriving Repr, DecidableEq

/-- Port of `map_key_to_bytes` from `app.rs`. -/
def mapKeyToBytes (key : Key) (modifiers : Modifiers) : Option (List Nat) :=
  let mapped : Option (List Nat) :=
    match key with
    | .named .enter => some [13]
    | .named .tab => some [9]
    | .named .backspace => some [127]
    | .named .escape => some [27]
    | .named .arrowUp => some [27, 91, 65]
    | .named .arrowDown => some [27, 91, 66]
    | .named .arrowRight => some [27, 91, 67]
    | .named .arrowLeft => some [27, 91, 68]
    | .named .home => some [27, 91, 72]
    | .named .endKey => some [27, 91, 70]
    | .named .delete => some [27, 91, 51, 126]
    | .named .insert => some [27, 91, 50, 126]
    | .named .pageUp => some [27, 91, 53, 126]
    | .named .pageDown => some [27, 91, 54, 126]
    | .named .space => some [32]
    | .named .other => none
    | .character ch =>
      match ch.data.head? with
      | some c =>
        if modifiers.control then
          if c.isAlpha ∧ c.toNat < 128 then some [(c.toLower.toNat - 97) + 1]
          else none
        else some (strBytes ch)
      | none => if modifiers.control then none else some (strBytes ch)
  match mapped with
  | none => none
  | some bytes => if modifiers.alt then some (27 :: bytes) else some bytes

/-- The tail of `Message::TerminalKeyPressed` after the scroll-mode block:
Ctrl shortcuts, suggestion-panel navigation, Esc closing search, and
finally `map_key_to_bytes` feeding `TerminalSendBytes`. -/
def keyPressedTail (s : AppState) (key : Key) (modifiers : Modifiers) :
    AppState × SentBytes :=
  let ctrlShortcut : Option (AppState × SentBytes) :=
    if modifiers.control then
      match key with
      | .character c =>
        if c = "f" then some (handleSearchToggle s, [])
        else if c = "=" ∨ c = "+" then some (handleFontSizeInc s, [])
        else if c = "-" then some (handleFontSizeDec s, [])
        else if c = "0" then some (handleFontSizeReset s, [])
        else if c = "v" then some (s, [])
        else none
      | .named .space =>
        match s.active_tab with
        | some active =>
          let triggers := s.custom_commands.map (·.trigger)
          let hasSuggestions :=
            match s.terminal_tabs.get? active with
            | some tab => !(computeSuggestions tab triggers).isEmpty
            | none => false
          if hasSuggestions then some (handleSuggestionMove s 1, []) else none
        | none => none
      | _ => none
    else none
  match ctrlShortcut with
  | some r => r
  | none =>
    let suggNav : Option (AppState × SentBytes) :=
      match s.active_tab with
      | none => none
      | some active =>
        let sugg_idx := (s.terminal_tabs.get? active).bind (·.suggestion_index)
        match key with
        | .named .arrowDown =>
          if sugg_idx.isSome then some (handleSuggestionMove s 1, []) else none
        | .named .arrowUp =>
          if sugg_idx.isSome then some (handleSuggestionMove s (-1), []) else none
        | .named .tab =>
          if sugg_idx.isSome then
            let triggers := s.custom_commands.map (·.trigger)
            let suggestions :=
              match s.terminal_tabs.get? active with
              | some tab => computeSuggestions tab triggers
              | none => []
            match sugg_idx with
            | some idx =>
              match suggestions.get? idx with
              | some cmd => some (handleSuggestionAccept s cmd)
              | none => none
            | none => none
          else none
        | .named .escape =>
          if sugg_idx.isSome then
            let f := fun (t : TerminalTab) => { t with suggestion_index := none }
            some ({ s with terminal_tabs := listModify s.terminal_tabs active f }, [])
          else none
        | _ => none
    match suggNav with
    | some r => r
    | none =>
      let searching : Bool :=
        match s.active_tab with
        | some i => ((s.terminal_tabs.get? i).map (·.search_active)).getD false
        | none => false
      let fallthrough : AppState × SentBytes :=
        match mapKeyToBytes key modifiers with
        | some bytes => handleSendBytes s bytes
        | none => (s, [])
      if key = Key.named NamedKey.escape then
        if searching then (handleSearchClose s, []) else fallthrough
      else fallthrough

/-- Port of `Message::TerminalKeyPressed`: the modal-dialog guard, the
scroll-mode interception of navigation keys, then `keyPressedTail`. -/
def handleKeyPressed (s : AppState) (key : Key) (modifiers : Modifiers) :
    AppState × SentBytes :=
  if s.dialog_open then (s, [])
  else if s.scroll_mode then
    match key with
    | .named .arrowUp => (handleScrollBy s (-(5 : ℚ)/100), [])
    | .named .arrowDown => (handleScrollBy s ((5 : ℚ)/100), [])
    | .named .pageUp => (handleScrollBy s (-(20 : ℚ)/100), [])
    | .named .pageDown => (handleScrollBy s ((20 : ℚ)/100), [])
    | .named .home => (handleScrollBy s (-1), [])
    | .named .endKey => (handleScrollBy s 1, [])
    | .named .escape => keyPressedTail { s with scroll_mode := false } key modifiers
    | .character _ => keyPressedTail { s with scroll_mode := false } key modifiers
    | _ => (s, [])
  else keyPressedTail s key modifiers

/-! ## Poll loop (`Message::TerminalPoll`) -/

/-- The synthesized exit notice fed into the interpreter when the relay
child has exited (`format!` string from the poll handler). -/
def exitLine (status : String) : String :=
  "\r\n[relay exited: " ++ status ++ "]\r\n"

/-- Accumulator of the per-session poll loop: the runtime map as it is
mutated in place, the ids scheduled for removal, and the snap flags. -/
structure PollAcc where
  runtimes : List (Nat × Runtime)
  to_remove : List Nat
  snap_top : Bool
  snap_bottom : Bool
  deriving Repr, DecidableEq

/-- One iteration of the per-session poll loop: drain all queued chunks into
the interpreter, check `try_wait`, synthesize the exit notice on exit, and
schedule the runtime for removal (senders gone or child exited). -/
def pollOne (tabs : List TerminalTab) (active_id : Option Nat) (acc : PollAcc)
    (id : Nat) : PollAcc :=
  match assocLookup acc.runtimes id with
  | none => acc
  | some rt =>
    let fed1 := rt.parser_fed ++ rt.chan.flatten
    let changed1 := !rt.chan.isEmpty
    let remove1 := rt.chan_disconnected
    let step2 : List Nat × Bool × Bool :=
      match rt.child_exit with
      | some status => (fed1 ++ strBytes (exitLine status), true, true)
      | none => (fed1, changed1, remove1)
    let rt' := { rt with chan := [], parser_fed := step2.1 }
    let changed := step2.2.1
    let should_remove := step2.2.2
    let snaps : Bool × Bool :=
      if changed ∧ (tabs.any (fun t => t.id = id)) ∧ active_id = some id then
        if rt'.alt_screen then (true, false)
        else if !acc.snap_top then (acc.snap_top, true)
        else (acc.snap_top, acc.snap_bottom)
      else (acc.snap_top, acc.snap_bottom)
    { runtimes := assocUpdate acc.runtimes id rt'
      to_remove := if should_remove then acc.to_remove ++ [id] else acc.to_remove
      snap_top := snaps.1
      snap_bottom := snaps.2 }

/-- The per-session loop of `Message::TerminalPoll` over all runtime ids,
before any removal happens. -/
def pollPass (s : AppState) : PollAcc :=
  let ids := s.terminal_runtime.map (·.1)
  let active_id := s.active_tab.bind (fun idx => (s.terminal_tabs.get? idx).map (·.id))
  ids.foldl (pollOne s.terminal_tabs active_id) ⟨s.terminal_runtime, [], false, false⟩

/-- Marking pass of the removal phase of `Message::TerminalPoll`: the tab
whose id was scheduled for removal is marked disconnected. -/
def markDisconnected (ts : List TerminalTab) (id : Nat) : List TerminalTab :=
  ts.map (fun t => if t.id = id then { t with connected := false } else t)

/-- Port of `Message::TerminalPoll`: run the per-session pass, then remove
the scheduled runtimes and mark their tabs disconnected, then apply the
snap decision to the scroll position. -/
def handlePoll (s : AppState) : AppState :=
  let acc := pollPass s
  let runtimes' := acc.to_remove.foldl (fun rs id => assocRemove rs id) acc.runtimes
  let tabs' := acc.to_remove.foldl markDisconnected s.terminal_tabs
  let s1 := { s with terminal_runtime := runtimes', terminal_tabs := tabs' }
  if acc.snap_top then { s1 with scroll_position := 0 }
  else if acc.snap_bottom ∧ ¬s.scroll_mode then { s1 with scroll_position := 1 }
  else s1

/-! ## Relay resolution (`terminal/bridge.rs`, `terminal/relay_mode.rs`) -/

/-- Port of `INTERNAL_RELAY_ARG`. -/
def internalRelayArg : String := "--relay-internal"

/-- Port of `is_internal_relay_mode`: whether the process arguments contain
the reserved internal relay flag. -/
def isInternalRelayMode (args : List String) : Bool :=
  args.contains internalRelayArg

/-- Arguments `spawn_relay_child` passes to the resolved relay binary:
none (`Command::new(relay_path)` with no `arg` calls). -/
def spawnRelayArgs : List String := []

/-- A file-system path, modelled as its list of components. -/
abbrev FsPath := List String

/-- The environment `find_relay_binary` consults: the current executable
path, the working directory, which files exist, the `CARGO_MANIFEST_DIR`
variable, and the outcome of a `cargo build` attempt in a project root
(`none` means success, `some err` the failure detail). -/
structure RelayEnv where
  exe : Option FsPath
  cwd : Option FsPath
  files : List FsPath
  manifest_dir : Option FsPath
  build : FsPath → Option String

/-- Port of `push_unique_path`. -/
def pushUniquePath (paths : List FsPath) (candidate : FsPath) : List FsPath :=
  if paths.contains candidate then paths else paths ++ [candidate]

/-- Parent of a path (`Path::parent`): `none` at the root. -/
def pathParent (p : FsPath) : Option FsPath :=
  match p with
  | [] => none
  | _ => some p.dropLast

/-- Rendering of a path for messages (`to_string_lossy`). -/
def pathStr (p : FsPath) : String := String.intercalate "/" p

/-- Port of `collect_candidates` from `bridge.rs`. -/
def collectCandidates (relay_name : String) (exe cwd : Option FsPath) : List FsPath :=
  let c0 : List FsPath := []
  let c1 :=
    match exe with
    | none => c0
    | some exePath =>
      match pathParent exePath with
      | none => c0
      | some exe_dir =>
        let c := pushUniquePath c0 (exe_dir ++ [relay_name])
        if exe_dir.getLast? = some "deps" then
          match pathParent exe_dir with
          | some parent => pushUniquePath c (parent ++ [relay_name])
          | none => c
        else c
  match cwd with
  | none => c1
  | some cwdPath =>
    let c2 := pushUniquePath c1 (cwdPath ++ [relay_name])
    let c3 := pushUniquePath c2 (cwdPath ++ ["target", "debug", relay_name])
    let c4 := pushUniquePath c3 (cwdPath ++ ["target", "release", relay_name])
    pushUniquePath c4 (cwdPath ++ ["dist", relay_name])

/-- Port of `first_existing`. -/
def firstExisting (files : List FsPath) (candidates : List FsPath) : Option FsPath :=
  candidates.find? (fun p => files.contains p)

/-- Port of `build_profile_from_exe`. -/
def buildProfileFromExe (exe : Option FsPath) : String :=
  match exe with
  | some exePath => if exePath.contains "release" then "release" else "debug"
  | none => "debug"

/-- Ancestors of a path (`Path::ancestors`): the path itself and every
parent up to and including the root. -/
def pathAncestors : FsPath → List FsPath
  | [] => [[]]
  | a :: rest => (a :: rest) :: pathAncestors ((a :: rest).dropLast)
termination_by p => p.length
decreasing_by
  simp only [List.length_dropLast, List.length_cons]
  omega

/-- Port of `detect_project_roots` from `bridge.rs`. -/
def detectProjectRoots (env : RelayEnv) : List FsPath :=
  let r0 : List FsPath := []
  let r1 :=
    match env.manifest_dir with
    | some m => if env.files.contains (m ++ ["Cargo.toml"]) then pushUniquePath r0 m else r0
    | none => r0
  let r2 :=
    match env.cwd with
    | some c => if env.files.contains (c ++ ["Cargo.toml"]) then pushUniquePath r1 c else r1
    | none => r1
  match env.exe with
  | some exePath =>
    (pathAncestors exePath).foldl
      (fun roots ancestor =>
        if env.files.contains (ancestor ++ ["Cargo.toml"]) then pushUniquePath roots ancestor
        else roots) r2
  | none => r2

/-- The build-fallback loop of `find_relay_binary`: try to build the relay
in each detected project root, pushing the expected output path and
re-checking on success, collecting failure details otherwise. -/
def relayBuildLoop (env : RelayEnv) (profile relay_name : String) :
    List FsPath → List FsPath → List String → Except String String
  | [], candidates, build_attempts =>
    let searched := String.intercalate ", " (candidates.map pathStr)
    if build_attempts.isEmpty then
      .error ("termissh-relay binary not found. Searched: " ++ searched)
    else
      .error ("termissh-relay binary not found. Searched: " ++ searched
        ++ ". Auto-build attempts failed: " ++ String.intercalate " | " build_attempts)
  | root :: rest, candidates, build_attempts =>
    match env.build root with
    | none =>
      let candidates' := pushUniquePath candidates (root ++ ["target", profile, relay_name])
      match firstExisting env.files candidates' with
      | some path => .ok (pathStr path)
      | none => relayBuildLoop env profile relay_name rest candidates' build_attempts
    | some err =>
      relayBuildLoop env profile relay_name rest candidates
        (build_attempts ++ [pathStr root ++ " => " ++ err])

/-- Port of `find_relay_binary` from `bridge.rs`. -/
def findRelayBinary (env : RelayEnv) : Except String String :=
  let relay_name := "termissh-relay"
  let candidates := collectCandidates relay_name env.exe env.cwd
  match firstExisting env.files candidates with
  | some path => .ok (pathStr path)
  | none =>
    let profile := buildProfileFromExe env.exe
    relayBuildLoop env profile relay_name (detectProjectRoots env) candidates []

/-! ## Concrete instances used by witnesses and counterexamples -/

/-- An idle runtime: child alive, channel empty and connected. -/
def rtIdle : Runtime := ⟨none, [], false, [], false⟩

/-- A tab with buffer "ls" and history containing "ls -la" then "lsof"
("lsof" most recent), the scenario named by the spec. -/
def tabLs : TerminalTab :=
  ⟨1, true, 13, false, "", false, "ls", ["ls -la", "lsof"], none⟩

/-- A tab in which the user typed "  gs  " (trims to the alias trigger). -/
def tabGs : TerminalTab :=
  ⟨1, true, 13, false, "", false, "  gs  ", ["x"], none⟩

/-- A state with the alias `gs => git status` and tab `tabGs` active. -/
def stGs : AppState :=
  ⟨[tabGs], some 0, [(1, rtIdle)], [⟨"gs", "git status"⟩], false, false, 1⟩

/-- A tab whose input buffer is empty. -/
def tabEmpty : TerminalTab :=
  ⟨1, true, 13, false, "", false, "", [], none⟩

/-- A state whose alias table contains an empty trigger while the active
tab's buffer trims to the empty string. -/
def stEmptyTrigger : AppState :=
  ⟨[tabEmpty], some 0, [(1, rtIdle)], [⟨"", "echo hi"⟩], false, false, 1⟩

/-- A state with `tabLs` active (used to exercise suggestion handlers). -/
def stLs : AppState :=
  ⟨[tabLs], some 0, [(1, rtIdle)], [], false, false, 1⟩

/-- A state with a modal dialog open. -/
def stDialog : AppState :=
  ⟨[tabLs], some 0, [(1, rtIdle)], [], true, false, 1⟩

/-- A runtime whose child has exited with queued output still in the
channel, feeding the poll-loop scenario. -/
def rtExited : Runtime := ⟨some "exit status: 0", [[104, 105]], false, [1, 2], false⟩

/-- A state owning the exited runtime under session id 7. -/
def stExited : AppState :=
  ⟨[⟨7, true, 13, false, "", false, "", [], none⟩], some 0, [(7, rtExited)], [],
   false, false, 1⟩

/-- A plain default-styled cell holding one given glyph. -/
def plainCell (g : String) : Cell := ⟨g, .default, .default, false, false, false, false⟩

/-- The 2-by-2 screen "ab" / "cd", every cell default-styled. -/
def screenAbCd : Screen :=
  ⟨2, 2, [[plainCell "a", plainCell "b"], [plainCell "c", plainCell "d"]]⟩

/-- The 2-row, 1-column screen "a" / "b", every cell default-styled. -/
def screenTwoRows : Screen := ⟨2, 1, [[plainCell "a"], [plainCell "b"]]⟩

/-- A concrete default colour for the renderer instances. -/
def defaultColorW : Color := ⟨1, 2, 3⟩

/-- The run style every default-styled cell produces under `defaultColorW`. -/
def styleW : TermSpanStyle := ⟨defaultColorW, none, false, false, false⟩

/-- An unstyled run holding "hello world hello". -/
def helloSpan : Span := Span.plain "hello world hello"

/-- A concrete highlight colour. -/
def hlColor : Color := ⟨255, 0, 0⟩

/-- A concrete base text colour for highlighting. -/
def baseColor : Color := ⟨9, 9, 9⟩

/-- An environment in which no relay binary exists anywhere, no project
root is detectable and builds fail. -/
def envNoRelay : RelayEnv :=
  ⟨some ["app"], none, [], none, fun _ => some "cargo not found"⟩

/-- An environment in which the relay binary sits next to the executable. -/
def envRelayPresent : RelayEnv :=
  ⟨some ["app"], none, [["termissh-relay"]], none, fun _ => some "cargo not found"⟩

/-! ## Helper lemmas -/

theorem listModify_getElem?_self (l : List α) (i : Nat) (f : α → α) :
    (listModify l i f)[i]? = l[i]?.map f := by
  induction l generalizing i with
  | nil => simp [listModify]
  | cons x xs ih =>
    cases i with
    | zero => simp [listModify]
    | succ n => simpa [listModify] using ih n

theorem listModify_getElem?_ne (l : List α) (i j : Nat) (f : α → α) (h : j ≠ i) :
    (listModify l i f)[j]? = l[j]? := by
  induction l generalizing i j with
  | nil => simp [listModify]
  | cons x xs ih =>
    cases i with
    | zero =>
      cases j with
      | zero => exact absurd rfl h
      | succ m => simp [listModify]
    | succ n =>
      cases j with
      | zero => simp [listModify]
      | succ m => simpa [listModify] using ih n m (by omega)

/-! ## Claim C10: modal dialogs swallow key presses and byte sends -/

/-- Claim C10: while a modal dialog is open, a key press or a byte-send
request performs no action at all — no bytes are written to any session's
relay input and the whole application state (in particular every tab's
input-echo buffer, command history and suggestion state) is unchanged. -/
theorem claim_c10_dialog_guard (s : AppState) (key : Key) (modifiers : Modifiers)
    (bytes : List Nat) (h : s.dialog_open = true) :
    handleKeyPressed s key modifiers = (s, []) ∧ handleSendBytes s bytes = (s, []) := by
  constructor
  · simp [handleKeyPressed, h]
  · simp [handleSendBytes, h]

/-- Witness for claim C10 at a concrete state with an open dialog. -/
theorem claim_c10_dialog_guard_witness :
    stDialog.dialog_open = true ∧
    (handleKeyPressed stDialog (Key.named NamedKey.enter) ⟨false, false⟩ = (stDialog, []) ∧
     handleSendBytes stDialog [13] = (stDialog, [])) :=
  ⟨rfl, claim_c10_dialog_guard stDialog (Key.named NamedKey.enter) ⟨false, false⟩ [13] rfl⟩

/-! ## Claim C8: accepting a suggestion -/

/-- Claim C8: accepting a suggestion writes exactly one clear-line byte
(0x15) followed by the suggestion text to the session's input — no
carriage return — and sets the local buffer to the suggestion text while
clearing the active suggestion selection. -/
theorem claim_c8_suggestion_accept (s : AppState) (i : Nat) (tab : TerminalTab)
    (cmd : String)
    (hact : s.active_tab = some i)
    (htab : s.terminal_tabs[i]? = some tab)
    (hrt : (assocLookup s.terminal_runtime tab.id).isSome = true) :
    (handleSuggestionAccept s cmd).2 = [(tab.id, 21 :: strBytes cmd)] ∧
    (handleSuggestionAccept s cmd).1.terminal_tabs[i]? =
      some { tab with input_buffer := cmd, suggestion_index := none } := by
  obtain ⟨rt, hrt'⟩ := Option.isSome_iff_exists.mp hrt
  have hget : (listModify s.terminal_tabs i
      (fun t => { t with input_buffer := cmd, suggestion_index := none }))[i]? =
      some { tab with input_buffer := cmd, suggestion_index := none } := by
    rw [listModify_getElem?_self, htab]; rfl
  constructor
  · simp only [handleSuggestionAccept, hact, List.get?_eq_getElem?]
    rw [hget]
    simp [hrt']
  · simp only [handleSuggestionAccept, hact, List.get?_eq_getElem?]
    exact hget

/-- Witness for claim C8 at a concrete state. -/
theorem claim_c8_suggestion_accept_witness :
    (stLs.active_tab = some 0 ∧ stLs.terminal_tabs[0]? = some tabLs ∧
      (assocLookup stLs.terminal_runtime tabLs.id).isSome = true) ∧
    ((handleSuggestionAccept stLs "ls -la").2 = [(tabLs.id, 21 :: strBytes "ls -la")] ∧
     (handleSuggestionAccept stLs "ls -la").1.terminal_tabs[0]? =
       some { tabLs with input_buffer := "ls -la", suggestion_index := none }) :=
  ⟨⟨rfl, rfl, rfl⟩,
   claim_c8_suggestion_accept stLs 0 tabLs "ls -la" rfl rfl rfl⟩

/-! ## Claim C9: suggestion-navigation invariant -/

/-- Claim C9: after a suggestion-navigation step by +1 or -1 on the active
tab, the active suggestion index is `none` or a valid index below the
number of computed suggestions; moving up from index 0 deselects, moving
down from the last suggestion stays clamped at the last index, and with no
suggestions the state is left unchanged. -/
theorem claim_c9_suggestion_move (s : AppState) (i : Nat) (tab : TerminalTab)
    (delta : Int)
    (hact : s.active_tab = some i)
    (htab : s.terminal_tabs[i]? = some tab)
    (hdelta : delta = 1 ∨ delta = -1) :
    (computeSuggestions tab (s.custom_commands.map (·.trigger)) ≠ [] →
      ∀ j, (handleSuggestionMove s delta).terminal_tabs[i]?.bind
        (fun t => t.suggestion_index) = some j →
      j < (computeSuggestions tab (s.custom_commands.map (·.trigger))).length) ∧
    (computeSuggestions tab (s.custom_commands.map (·.trigger)) = [] →
      handleSuggestionMove s delta = s) ∧
    (computeSuggestions tab (s.custom_commands.map (·.trigger)) ≠ [] →
      tab.suggestion_index = some 0 → delta = -1 →
      (handleSuggestionMove s delta).terminal_tabs[i]?.bind
        (fun t => t.suggestion_index) = none) ∧
    (computeSuggestions tab (s.custom_commands.map (·.trigger)) ≠ [] →
      tab.suggestion_index =
        some ((computeSuggestions tab (s.custom_commands.map (·.trigger))).length - 1) →
      delta = 1 →
      (handleSuggestionMove s delta).terminal_tabs[i]?.bind
        (fun t => t.suggestion_index) =
        some ((computeSuggestions tab (s.custom_commands.map (·.trigger))).length - 1)) := by
  set sugg := computeSuggestions tab (s.custom_commands.map (·.trigger)) with hsugg
  by_cases hempty : sugg = []
  · have hmove : handleSuggestionMove s delta = s := by
      simp [handleSuggestionMove, hact, htab, ← hsugg, hempty]
    exact ⟨fun hne => absurd hempty hne, fun _ => hmove,
           fun hne => absurd hempty hne, fun hne => absurd hempty hne⟩
  · have hlen : 1 ≤ sugg.length := by
      cases h : sugg with
      | nil => exact absurd h hempty
      | cons a l => simp [h]
    have hget : (handleSuggestionMove s delta).terminal_tabs[i]?.bind
        (fun t => t.suggestion_index) =
        (match tab.suggestion_index with
         | none => if delta > 0 then some 0 else none
         | some idx =>
           if (idx : Int) + delta < 0 then none
           else some (min ((idx : Int) + delta).toNat (sugg.length - 1))) := by
      have hmove : (handleSuggestionMove s delta).terminal_tabs =
          listModify s.terminal_tabs i (fun t =>
            { t with suggestion_index :=
                match tab.suggestion_index with
                | none => if delta > 0 then some 0 else none
                | some idx =>
                  if (idx : Int) + delta < 0 then none
                  else some (min ((idx : Int) + delta).toNat (sugg.length - 1)) }) := by
        simp [handleSuggestionMove, hact, htab, ← hsugg, hempty, List.isEmpty_iff]
      rw [hmove]
      simp [listModify_getElem?_self, htab]
    refine ⟨?_, fun h => absurd h hempty, ?_, ?_⟩
    · intro _ j hj
      rw [hget] at hj
      rcases hidx : tab.suggestion_index with _ | idx
      · rw [hidx] at hj
        rcases hdelta with h1 | h1 <;> rw [h1] at hj <;> simp at hj
        omega
      · rw [hidx] at hj
        by_cases hneg : (idx : Int) + delta < 0
        · simp [hneg] at hj
        · simp [hneg] at hj
          omega
    · intro _ hidx h1
      rw [hget, hidx, h1]
      norm_num
    · intro _ hidx h1
      rw [hget, hidx, h1]
      have h0 : ¬((((sugg.length - 1 : Nat) : Int)) + 1 < 0) := by omega
      simp only [if_neg h0]
      congr 1
      omega

/-- Witness for claim C9 at a concrete state (buffer "ls", two history
matches, moving down from no selection). -/
theorem claim_c9_suggestion_move_witness :
    (stLs.active_tab = some 0 ∧ stLs.terminal_tabs[0]? = some tabLs ∧
      ((1 : Int) = 1 ∨ (1 : Int) = -1)) ∧
    (computeSuggestions tabLs (stLs.custom_commands.map (·.trigger)) ≠ [] →
      ∀ j, (handleSuggestionMove stLs 1).terminal_tabs[0]?.bind
        (fun t => t.suggestion_index) = some j →
      j < (computeSuggestions tabLs (stLs.custom_commands.map (·.trigger))).length) :=
  ⟨⟨rfl, rfl, Or.inl rfl⟩,
   (claim_c9_suggestion_move stLs 0 tabLs 1 rfl rfl (Or.inl rfl)).1⟩

/-! ## Claim C7: relay resolution -/

/-- Counterexample to claim C7 as stated: in an environment where no relay
binary exists on disk and no project root is detectable, `find_relay_binary`
fails with the descriptive error — so resolution is not "always resolvable
via the current executable path" and the single-binary internal-flag mode is
never consulted first. -/
theorem claim_c7_counterexample :
    findRelayBinary envNoRelay =
      .error "termissh-relay binary not found. Searched: termissh-relay" ∧
    isInternalRelayMode spawnRelayArgs = false := by
  constructor
  · with_unfolding_all rfl
  · decide

/-- Claim C7 (amended): relay resolution consults only the candidate
file-system paths, first existing wins; when none exists and no project
root is detected for the build fallback, it fails with a descriptive error
naming all searched locations. The internal relay flag exists but takes no
part in resolution. -/
theorem claim_c7_relay_resolution (env : RelayEnv) :
    (∀ p, firstExisting env.files (collectCandidates "termissh-relay" env.exe env.cwd) =
        some p → findRelayBinary env = .ok (pathStr p)) ∧
    (firstExisting env.files (collectCandidates "termissh-relay" env.exe env.cwd) = none →
      detectProjectRoots env = [] →
      findRelayBinary env = .error ("termissh-relay binary not found. Searched: "
        ++ String.intercalate ", "
            ((collectCandidates "termissh-relay" env.exe env.cwd).map pathStr))) := by
  constructor
  · intro p hp
    simp [findRelayBinary, hp]
  · intro hnone hroots
    simp [findRelayBinary, hnone, hroots, relayBuildLoop]

/-- Witness for claim C7 (amended) at a concrete environment in which the
relay binary sits next to the executable. -/
theorem claim_c7_relay_resolution_witness :
    firstExisting envRelayPresent.files
        (collectCandidates "termissh-relay" envRelayPresent.exe envRelayPresent.cwd) =
      some ["termissh-relay"] ∧
    findRelayBinary envRelayPresent = .ok (pathStr ["termissh-relay"]) :=
  ⟨rfl, (claim_c7_relay_resolution envRelayPresent).1 ["termissh-relay"] rfl⟩

/-! ## Claim C1: Enter-time alias interception and history tracking -/

theorem pushHistory_getLast (h : List String) (cmd : String) :
    (pushHistory h cmd).getLast? = some cmd := by
  unfold pushHistory
  split
  · next hgt =>
    have h1 : 1 ≤ h.length := by simp at hgt; omega
    rw [List.drop_append_of_le_length h1]
    simp
  · simp

theorem pushHistory_length_le (h : List String) (cmd : String)
    (hle : h.length ≤ 50) : (pushHistory h cmd).length ≤ 50 := by
  unfold pushHistory
  split <;> simp_all

theorem pushHistory_eq_append (h : List String) (cmd : String)
    (hlt : h.length < 50) : pushHistory h cmd = h ++ [cmd] := by
  unfold pushHistory
  rw [if_neg (by simp; omega)]

theorem pushHistory_eq_drop (h : List String) (cmd : String)
    (heq : h.length = 50) : pushHistory h cmd = h.drop 1 ++ [cmd] := by
  unfold pushHistory
  rw [if_pos (by simp [heq]), List.drop_append_of_le_length (by omega)]

theorem sendBytesPhase2_spec (s1 : AppState) (bytes : List Nat) (i : Nat)
    (tab : TerminalTab) (rt : Runtime)
    (hact : s1.active_tab = some i)
    (htab : s1.terminal_tabs[i]? = some tab)
    (hrt : assocLookup s1.terminal_runtime tab.id = some rt) :
    (sendBytesPhase2 (s1, bytes)).2 = [(tab.id, bytes)] ∧
    (sendBytesPhase2 (s1, bytes)).1.terminal_tabs = s1.terminal_tabs := by
  simp only [sendBytesPhase2, List.get?_eq_getElem?, hact]
  rw [htab]
  simp only [hrt]
  constructor <;> first | trivial | (split <;> rfl)

/-- Counterexample to claim C1 as stated: with an alias whose trigger is
the empty string and an input buffer trimming to the empty string, the
trimmed buffer exactly equals an alias trigger, yet Enter sends the
literal carriage return, not clear-line plus the alias script. -/
theorem claim_c1_counterexample :
    (stEmptyTrigger.terminal_tabs[0]?.map (fun t => t.input_buffer.trim) = some "" ∧
     stEmptyTrigger.custom_commands.map (·.trigger) = [""]) ∧
    (handleSendBytes stEmptyTrigger [13]).2 = [(1, [13])] ∧
    (handleSendBytes stEmptyTrigger [13]).2 ≠
      [(1, 21 :: (strBytes "echo hi" ++ [13]))] := by
  refine ⟨⟨?_, ?_⟩, ?_, ?_⟩
  · with_unfolding_all rfl
  · with_unfolding_all rfl
  · with_unfolding_all rfl
  · intro heq
    rw [show (handleSendBytes stEmptyTrigger [13]).2 = [(1, [13])] from by
      with_unfolding_all rfl] at heq
    simp at heq

/-- Claim C1 (amended): at Enter time with no dialog open and an active
session, (1) when the trimmed buffer is non-empty and exactly equals an
alias trigger, the bytes written are the clear-line byte 0x15, the alias's
script bytes, then carriage return — never the literal typed text — and
the history is untouched; (2) when no alias matches, the non-empty trimmed
buffer differs from the most recent history entry, it is appended to the
history, which stays bounded to 50 entries with the oldest dropped; (3, 4)
in every case (duplicate of last entry, empty buffer included) the input
buffer is cleared afterwards and the literal bytes go out unchanged. -/
theorem claim_c1_enter_alias_history (s : AppState) (i : Nat) (tab : TerminalTab)
    (rt : Runtime)
    (hdlg : s.dialog_open = false)
    (hact : s.active_tab = some i)
    (htab : s.terminal_tabs[i]? = some tab)
    (hrt : assocLookup s.terminal_runtime tab.id = some rt) :
    (tab.input_buffer.trim ≠ "" →
      ∀ cc, s.custom_commands.find? (fun c => c.trigger = tab.input_buffer.trim) = some cc →
      (handleSendBytes s [13]).2 = [(tab.id, 21 :: (strBytes cc.script ++ [13]))] ∧
      (handleSendBytes s [13]).1.terminal_tabs[i]? = some { tab with input_buffer := "" }) ∧
    (tab.input_buffer.trim ≠ "" →
      s.custom_commands.find? (fun c => c.trigger = tab.input_buffer.trim) = none →
      tab.command_history.getLast? ≠ some tab.input_buffer.trim →
      (handleSendBytes s [13]).2 = [(tab.id, [13])] ∧
      (handleSendBytes s [13]).1.terminal_tabs[i]? =
        some { tab with
               input_buffer := "",
               command_history := pushHistory tab.command_history tab.input_buffer.trim } ∧
      (pushHistory tab.command_history tab.input_buffer.trim).getLast? =
        some tab.input_buffer.trim ∧
      (tab.command_history.length ≤ 50 →
        (pushHistory tab.command_history tab.input_buffer.trim).length ≤ 50) ∧
      (tab.command_history.length < 50 →
        pushHistory tab.command_history tab.input_buffer.trim =
          tab.command_history ++ [tab.input_buffer.trim]) ∧
      (tab.command_history.length = 50 →
        pushHistory tab.command_history tab.input_buffer.trim =
          tab.command_history.drop 1 ++ [tab.input_buffer.trim])) ∧
    (tab.input_buffer.trim ≠ "" →
      s.custom_commands.find? (fun c => c.trigger = tab.input_buffer.trim) = none →
      tab.command_history.getLast? = some tab.input_buffer.trim →
      (handleSendBytes s [13]).2 = [(tab.id, [13])] ∧
      (handleSendBytes s [13]).1.terminal_tabs[i]? = some { tab with input_buffer := "" }) ∧
    (tab.input_buffer.trim = "" →
      (handleSendBytes s [13]).2 = [(tab.id, [13])] ∧
      (handleSendBytes s [13]).1.terminal_tabs[i]? = some { tab with input_buffer := "" }) := by
  have hsend : ∀ (p : AppState × List Nat) (tab' : TerminalTab),
      handleSendBytes s [13] = sendBytesPhase2 p →
      p.1.active_tab = some i →
      p.1.terminal_tabs[i]? = some tab' →
      tab'.id = tab.id →
      p.1.terminal_runtime = s.terminal_runtime →
      (handleSendBytes s [13]).2 = [(tab.id, p.2)] ∧
      (handleSendBytes s [13]).1.terminal_tabs[i]? = some tab' := by
    intro p tab' hp hact1 htab1 hid hruntime1
    have hrt1 : assocLookup p.1.terminal_runtime tab'.id = some rt := by
      rw [hruntime1, hid]; exact hrt
    have hspec := sendBytesPhase2_spec p.1 p.2 i tab' rt hact1 htab1 hrt1
    have e : sendBytesPhase2 (p.1, p.2) = sendBytesPhase2 p := rfl
    rw [e] at hspec
    constructor
    · rw [hp, hspec.1, hid]
    · rw [hp]
      have h2 : (sendBytesPhase2 p).1.terminal_tabs = p.1.terminal_tabs := hspec.2
      rw [h2]; exact htab1
  have hpz : handleSendBytes s [13] = sendBytesPhase2 (sendBytesPhase1 s [13]) := by
    simp [handleSendBytes, hdlg]
  refine ⟨?_, ?_, ?_, ?_⟩
  · intro hbuf cc hfind
    have hph1 : sendBytesPhase1 s [13] =
        ({ s with terminal_tabs := (listModify s.terminal_tabs i
            (fun t => { t with input_buffer := "" })) },
         21 :: (strBytes cc.script ++ [13])) := by
      simp [sendBytesPhase1, hact, htab, hbuf, hfind]
    have hgot : (listModify s.terminal_tabs i
        (fun t => { t with input_buffer := "" }))[i]? =
        some { tab with input_buffer := "" } := by
      rw [listModify_getElem?_self, htab]; rfl
    exact hsend _ { tab with input_buffer := "" } (hph1 ▸ hpz) hact hgot rfl rfl
  · intro hbuf hfind hlast
    have hph1 : sendBytesPhase1 s [13] =
        ({ s with terminal_tabs := (listModify
            (listModify s.terminal_tabs i (fun t =>
              if t.command_history.getLast? ≠ some tab.input_buffer.trim then
                { t with command_history :=
                    pushHistory t.command_history tab.input_buffer.trim }
              else t)) i
            (fun t => { t with input_buffer := "" })) },
         [13]) := by
      simp [sendBytesPhase1, hact, htab, hbuf, hfind]
    have hgot : (listModify
        (listModify s.terminal_tabs i (fun t =>
          if t.command_history.getLast? ≠ some tab.input_buffer.trim then
            { t with command_history :=
                pushHistory t.command_history tab.input_buffer.trim }
          else t)) i
        (fun t => { t with input_buffer := "" }))[i]? =
        some { tab with
               input_buffer := "",
               command_history := pushHistory tab.command_history tab.input_buffer.trim } := by
      rw [listModify_getElem?_self, listModify_getElem?_self, htab]
      simp [hlast]
    have hres := hsend _
      { tab with
        input_buffer := "",
        command_history := pushHistory tab.command_history tab.input_buffer.trim }
      (hph1 ▸ hpz) hact hgot rfl rfl
    exact ⟨hres.1, hres.2, pushHistory_getLast _ _, pushHistory_length_le _ _,
      pushHistory_eq_append _ _, pushHistory_eq_drop _ _⟩
  · intro hbuf hfind hlast
    have hph1 : sendBytesPhase1 s [13] =
        ({ s with terminal_tabs := (listModify
            (listModify s.terminal_tabs i (fun t =>
              if t.command_history.getLast? ≠ some tab.input_buffer.trim then
                { t with command_history :=
                    pushHistory t.command_history tab.input_buffer.trim }
              else t)) i
            (fun t => { t with input_buffer := "" })) },
         [13]) := by
      simp [sendBytesPhase1, hact, htab, hbuf, hfind]
    have hgot : (listModify
        (listModify s.terminal_tabs i (fun t =>
          if t.command_history.getLast? ≠ some tab.input_buffer.trim then
            { t with command_history :=
                pushHistory t.command_history tab.input_buffer.trim }
          else t)) i
        (fun t => { t with input_buffer := "" }))[i]? =
        some { tab with input_buffer := "" } := by
      rw [listModify_getElem?_self, listModify_getElem?_self, htab]
      simp [hlast]
    exact hsend _ { tab with input_buffer := "" } (hph1 ▸ hpz) hact hgot rfl rfl
  · intro hbuf
    have hph1 : sendBytesPhase1 s [13] =
        ({ s with terminal_tabs := (listModify s.terminal_tabs i
            (fun t => { t with input_buffer := "" })) },
         [13]) := by
      simp [sendBytesPhase1, hact, htab, hbuf]
    have hgot : (listModify s.terminal_tabs i
        (fun t => { t with input_buffer := "" }))[i]? =
        some { tab with input_buffer := "" } := by
      rw [listModify_getElem?_self, htab]; rfl
    exact hsend _ { tab with input_buffer := "" } (hph1 ▸ hpz) hact hgot rfl rfl

/-- Witness for claim C1 (amended) at a concrete state with the alias
`gs => git status` and a buffer trimming to "gs". -/
theorem claim_c1_enter_alias_history_witness :
    (stGs.dialog_open = false ∧ stGs.active_tab = some 0 ∧
     stGs.terminal_tabs[0]? = some tabGs ∧
     assocLookup stGs.terminal_runtime tabGs.id = some rtIdle) ∧
    (tabGs.input_buffer.trim ≠ "" →
      ∀ cc, stGs.custom_commands.find?
          (fun c => c.trigger = tabGs.input_buffer.trim) = some cc →
      (handleSendBytes stGs [13]).2 = [(tabGs.id, 21 :: (strBytes cc.script ++ [13]))] ∧
      (handleSendBytes stGs [13]).1.terminal_tabs[0]? =
        some { tabGs with input_buffer := "" }) :=
  ⟨⟨rfl, rfl, rfl, rfl⟩,
   (claim_c1_enter_alias_history stGs 0 tabGs rtIdle rfl rfl rfl rfl).1⟩

/-! ## Claim C2: suggestion computation -/

theorem capDedupPush_eq_take (ok : String → Bool) :
    ∀ (cands accC accU : List String), accC = accU.take 8 →
    capDedupPush ok accC cands = (specDedupPush ok accU cands).take 8 := by
  intro cands
  induction cands with
  | nil =>
    intro accC accU h
    simpa [capDedupPush, specDedupPush] using h
  | cons c cs ih =>
    intro accC accU h
    show capDedupPush ok
        (if accC.length ≥ 8 then accC
         else if ok c && !(accC.contains c) then accC ++ [c] else accC) cs =
      (specDedupPush ok
        (if ok c && !(accU.contains c) then accU ++ [c] else accU) cs).take 8
    apply ih
    by_cases hlen : accU.length < 8
    · have hacc : accC = accU := by
        rw [h, List.take_of_length_le (by omega)]
      rw [hacc, if_neg (by omega)]
      by_cases hc : (ok c && !(accU.contains c)) = true
      · rw [if_pos hc, List.take_of_length_le (by simp; omega)]
      · rw [if_neg hc, List.take_of_length_le (by omega)]
    · have hlenC : accC.length = 8 := by
        rw [h, List.length_take]; omega
      rw [if_pos (by omega)]
      by_cases hc : (ok c && !(accU.contains c)) = true
      · rw [if_pos hc, h, List.take_append_of_le_length (by omega)]
      · rw [if_neg hc, h]

theorem mem_capDedupPush (ok : String → Bool) :
    ∀ (cands acc : List String) (x : String),
    x ∈ capDedupPush ok acc cands → x ∈ acc ∨ ok x = true := by
  intro cands
  induction cands with
  | nil =>
    intro acc x hx
    exact Or.inl (by simpa [capDedupPush] using hx)
  | cons c cs ih =>
    intro acc x hx
    have hx' : x ∈ (if acc.length ≥ 8 then acc
        else if ok c && !(acc.contains c) then acc ++ [c] else acc) ∨ ok x = true :=
      ih _ x hx
    rcases hx' with hmem | hok
    · by_cases h8 : acc.length ≥ 8
      · rw [if_pos h8] at hmem
        exact Or.inl hmem
      · rw [if_neg h8] at hmem
        by_cases hc : (ok c && !(acc.contains c)) = true
        · rw [if_pos hc] at hmem
          rcases List.mem_append.mp hmem with h1 | h1
          · exact Or.inl h1
          · have hx_eq : x = c := by simpa using h1
            subst hx_eq
            simp only [Bool.and_eq_true] at hc
            exact Or.inr hc.1
        · rw [if_neg hc] at hmem
          exact Or.inl hmem
    · exact Or.inr hok

set_option maxRecDepth 8000 in
/-- Claim C2: the computed suggestion list consists, in order, of (1) up to
4 history entries whose lowercase form starts with the lowercase buffer and
is not exactly equal to it, most-recent first; (2) alias triggers not
already included that match and differ from the buffer; (3) built-in
commands not already included that match and differ from the buffer — the
whole list capped at 8, never containing the buffer itself; and for buffer
"ls" with history ["ls -la", "lsof"] and no alias, the result is exactly
["lsof", "ls -la"] (most recent first, never "ls" itself). -/
theorem claim_c2_compute_suggestions :
    (∀ (tab : TerminalTab) (alias_triggers : List String),
      computeSuggestions tab alias_triggers = computeSuggestionsSpec tab alias_triggers) ∧
    (∀ (tab : TerminalTab) (alias_triggers : List String),
      (computeSuggestions tab alias_triggers).length ≤ 8) ∧
    (∀ (tab : TerminalTab) (alias_triggers : List String),
      tab.input_buffer ∉ computeSuggestions tab alias_triggers) ∧
    computeSuggestions tabLs [] = ["lsof", "ls -la"] := by
  have hmain : ∀ (tab : TerminalTab) (alias_triggers : List String),
      computeSuggestions tab alias_triggers = computeSuggestionsSpec tab alias_triggers := by
    intro tab alias_triggers
    unfold computeSuggestions computeSuggestionsSpec
    by_cases hb : tab.input_buffer = ""
    · simp [hb]
    · simp only [hb, if_false, ite_false]
      have hhist : ((tab.command_history.reverse.filter
          (fun cmd => cmd.toLower.startsWith tab.input_buffer.toLower &&
            cmd.toLower != tab.input_buffer.toLower)).take 4).length ≤ 8 := by
        have := List.length_take_le 4 (tab.command_history.reverse.filter
          (fun cmd => cmd.toLower.startsWith tab.input_buffer.toLower &&
            cmd.toLower != tab.input_buffer.toLower))
        omega
      have h1 := capDedupPush_eq_take
        (fun trigger => trigger.toLower.startsWith tab.input_buffer.toLower &&
          trigger != tab.input_buffer)
        alias_triggers _ _ (List.take_of_length_le hhist).symm
      have h2 := capDedupPush_eq_take
        (fun builtin => builtin.toLower.startsWith tab.input_buffer.toLower &&
          builtin != tab.input_buffer)
        builtInSuggestions _ _ h1
      exact h2
  refine ⟨hmain, ?_, ?_, ?_⟩
  · intro tab alias_triggers
    rw [hmain]
    unfold computeSuggestionsSpec
    split
    · simp
    · exact List.length_take_le 8 _
  · intro tab alias_triggers hmem
    unfold computeSuggestions at hmem
    by_cases hb : tab.input_buffer = ""
    · rw [if_pos hb] at hmem
      simp at hmem
    · rw [if_neg hb] at hmem
      have step1 := mem_capDedupPush _ _ _ _ hmem
      rcases step1 with hmem1 | hok
      · have step2 := mem_capDedupPush _ _ _ _ hmem1
        rcases step2 with hmem2 | hok
        · have := List.mem_of_mem_take hmem2
          have hfil := List.of_mem_filter this
          simp only [Bool.and_eq_true, bne_iff_ne] at hfil
          exact hfil.2 rfl
        · simp at hok
      · simp at hok
  · with_unfolding_all rfl

/-! ## Claim C6: poll loop on child exit -/

theorem assocLookup_update_self (l : List (Nat × Runtime)) (id : Nat) (rt rt0 : Runtime)
    (h : assocLookup l id = some rt0) :
    assocLookup (assocUpdate l id rt) id = some rt := by
  induction l with
  | nil => simp [assocLookup] at h
  | cons a t ih =>
    obtain ⟨k, v⟩ := a
    by_cases hk : k = id
    · subst hk
      rw [show assocUpdate ((k, v) :: t) k rt = (k, rt) :: assocUpdate t k rt by
        simp [assocUpdate]]
      simp [assocLookup]
    · rw [show assocUpdate ((k, v) :: t) id rt = (k, v) :: assocUpdate t id rt by
        simp [assocUpdate, hk]]
      simp only [assocLookup, if_neg hk] at h ⊢
      exact ih h

theorem assocLookup_update_ne (l : List (Nat × Runtime)) (id id' : Nat) (rt : Runtime)
    (h : id ≠ id') :
    assocLookup (assocUpdate l id' rt) id = assocLookup l id := by
  induction l with
  | nil => simp [assocLookup, assocUpdate]
  | cons a t ih =>
    obtain ⟨k, v⟩ := a
    by_cases hk : k = id'
    · rw [show assocUpdate ((k, v) :: t) id' rt = (id', rt) :: assocUpdate t id' rt by
        simp [assocUpdate, hk]]
      rw [show assocLookup ((id', rt) :: assocUpdate t id' rt) id =
        assocLookup (assocUpdate t id' rt) id by
          simp [assocLookup, if_neg (by omega : ¬id' = id)]]
      rw [ih]
      simp [assocLookup, hk, if_neg (by omega : ¬id' = id)]
    · rw [show assocUpdate ((k, v) :: t) id' rt = (k, v) :: assocUpdate t id' rt by
        simp [assocUpdate, hk]]
      by_cases hki : k = id
      · simp [assocLookup, hki]
      · simp only [assocLookup, if_neg hki]
        exact ih

theorem assocLookup_remove (l : List (Nat × Runtime)) (id x : Nat) :
    assocLookup (assocRemove l x) id =
      if id = x then none else assocLookup l id := by
  induction l with
  | nil => simp [assocLookup, assocRemove]
  | cons a t ih =>
    obtain ⟨k, v⟩ := a
    by_cases hkx : k = x
    · rw [show assocRemove ((k, v) :: t) x = assocRemove t x by
        simp [assocRemove, List.filter_cons, hkx]]
      rw [ih]
      by_cases hix : id = x
      · simp [hix]
      · rw [if_neg hix, if_neg hix]
        simp [assocLookup, if_neg (show ¬k = id by omega)]
    · rw [show assocRemove ((k, v) :: t) x = (k, v) :: assocRemove t x by
        simp [assocRemove, List.filter_cons, hkx]]
      by_cases hki : k = id
      · simp [assocLookup, hki, show ¬id = x by omega]
      · simp only [assocLookup, if_neg hki]
        exact ih

theorem assocLookup_mem_keys (l : List (Nat × Runtime)) (id : Nat) (rt : Runtime)
    (h : assocLookup l id = some rt) : id ∈ l.map (·.1) := by
  induction l with
  | nil => simp [assocLookup] at h
  | cons a t ih =>
    obtain ⟨k, v⟩ := a
    by_cases hk : k = id
    · simp [hk]
    · simp only [assocLookup, if_neg hk] at h
      simp [ih h]

theorem pollOne_other (tabs : List TerminalTab) (act : Option Nat) (acc : PollAcc)
    (id id' : Nat) (h : id ≠ id') :
    assocLookup (pollOne tabs act acc id').runtimes id = assocLookup acc.runtimes id ∧
    (id ∈ (pollOne tabs act acc id').to_remove ↔ id ∈ acc.to_remove) := by
  unfold pollOne
  cases hl : assocLookup acc.runtimes id' with
  | none => simp
  | some rt =>
    refine ⟨assocLookup_update_ne _ _ _ _ h, ?_⟩
    rcases hce : rt.child_exit with _ | status
    · simp only [hce]
      split
      · simp [h]
      · exact Iff.rfl
    · simp [hce, h]

theorem pollOne_self (tabs : List TerminalTab) (act : Option Nat) (acc : PollAcc)
    (id : Nat) (rt : Runtime) (status : String)
    (hrt : assocLookup acc.runtimes id = some rt)
    (hexit : rt.child_exit = some status) :
    assocLookup (pollOne tabs act acc id).runtimes id =
      some { rt with
             chan := [],
             parser_fed := (rt.parser_fed ++ rt.chan.flatten) ++ strBytes (exitLine status) } ∧
    id ∈ (pollOne tabs act acc id).to_remove := by
  unfold pollOne
  rw [hrt]
  simp only [hexit]
  exact ⟨assocLookup_update_self _ _ _ _ hrt, by simp⟩

theorem pollFold_not_mem (tabs : List TerminalTab) (act : Option Nat) :
    ∀ (ids : List Nat) (acc : PollAcc) (id : Nat), id ∉ ids →
    assocLookup (ids.foldl (pollOne tabs act) acc).runtimes id =
      assocLookup acc.runtimes id ∧
    (id ∈ (ids.foldl (pollOne tabs act) acc).to_remove ↔ id ∈ acc.to_remove) := by
  intro ids
  induction ids with
  | nil => intro acc id _; exact ⟨rfl, Iff.rfl⟩
  | cons x xs ih =>
    intro acc id hmem
    have hx : id ≠ x := by simp at hmem; exact hmem.1
    have hxs : id ∉ xs := by simp at hmem; exact hmem.2
    have h1 := pollOne_other tabs act acc id x hx
    have h2 := ih (pollOne tabs act acc x) id hxs
    exact ⟨by rw [List.foldl_cons, h2.1, h1.1],
           by rw [List.foldl_cons]; exact h2.2.trans h1.2⟩

theorem assocRemove_fold_none_of_none :
    ∀ (rem : List Nat) (rs : List (Nat × Runtime)) (id : Nat),
    assocLookup rs id = none →
    assocLookup (rem.foldl assocRemove rs) id = none := by
  intro rem
  induction rem with
  | nil => intro rs id h; exact h
  | cons x xs ih =>
    intro rs id h
    rw [List.foldl_cons]
    refine ih _ _ ?_
    rw [assocLookup_remove]
    split <;> simp [h]

theorem assocRemove_fold_none :
    ∀ (rem : List Nat) (rs : List (Nat × Runtime)) (id : Nat),
    id ∈ rem →
    assocLookup (rem.foldl assocRemove rs) id = none := by
  intro rem
  induction rem with
  | nil => intro rs id h; simp at h
  | cons x xs ih =>
    intro rs id h
    rw [List.foldl_cons]
    by_cases hx : id = x
    · refine assocRemove_fold_none_of_none xs _ id ?_
      rw [assocLookup_remove, if_pos hx]
    · exact ih _ _ (by simpa [hx] using h)

theorem markDisconnected_preserve (ts : List TerminalTab) (id id' : Nat)
    (h : ∀ t ∈ ts, t.id = id → t.connected = false) :
    ∀ t ∈ markDisconnected ts id', t.id = id → t.connected = false := by
  intro t ht hid
  unfold markDisconnected at ht
  obtain ⟨t0, ht0, heq⟩ := List.mem_map.mp ht
  by_cases h0 : t0.id = id'
  · rw [if_pos h0] at heq
    rw [← heq]
  · rw [if_neg h0] at heq
    rw [← heq]
    exact h t0 ht0 (by rw [heq]; exact hid)

theorem markDisconnected_self (ts : List TerminalTab) (id : Nat) :
    ∀ t ∈ markDisconnected ts id, t.id = id → t.connected = false := by
  intro t ht hid
  unfold markDisconnected at ht
  obtain ⟨t0, _, heq⟩ := List.mem_map.mp ht
  by_cases h0 : t0.id = id
  · rw [if_pos h0] at heq
    rw [← heq]
  · rw [if_neg h0] at heq
    exact absurd (heq ▸ hid) h0

theorem markDisconnected_fold_preserve :
    ∀ (rem : List Nat) (ts : List TerminalTab) (id : Nat),
    (∀ t ∈ ts, t.id = id → t.connected = false) →
    ∀ t ∈ rem.foldl markDisconnected ts, t.id = id → t.connected = false := by
  intro rem
  induction rem with
  | nil => intro ts id h; exact h
  | cons x xs ih =>
    intro ts id h
    rw [List.foldl_cons]
    exact ih _ _ (markDisconnected_preserve ts id x h)

theorem markDisconnected_fold :
    ∀ (rem : List Nat) (ts : List TerminalTab) (id : Nat), id ∈ rem →
    ∀ t ∈ rem.foldl markDisconnected ts, t.id = id → t.connected = false := by
  intro rem
  induction rem with
  | nil => intro ts id h; simp at h
  | cons x xs ih =>
    intro ts id h
    rw [List.foldl_cons]
    by_cases hx : id = x
    · exact markDisconnected_fold_preserve xs _ id
        (hx ▸ markDisconnected_self ts x)
    · exact ih _ _ (by simpa [hx] using h)

theorem handlePoll_runtime (s : AppState) :
    (handlePoll s).terminal_runtime =
      (pollPass s).to_remove.foldl assocRemove (pollPass s).runtimes := by
  simp only [handlePoll]
  split_ifs <;> rfl

theorem handlePoll_tabs (s : AppState) :
    (handlePoll s).terminal_tabs =
      (pollPass s).to_remove.foldl markDisconnected s.terminal_tabs := by
  simp only [handlePoll]
  split_ifs <;> rfl

/-- Claim C6: on a poll tick, for a session whose relay child has exited,
the per-session pass first drains the queued chunks into the interpreter,
then feeds the "[relay exited: <status>]" notice, and only schedules the
runtime for removal; the removal itself, and marking the session
disconnected, happen after the per-session loop over all sessions has
completed — the runtime mutated during the pass is still present in the
pass's result and is removed only in the final state. -/
theorem claim_c6_poll_exit (s : AppState) (id : Nat) (rt : Runtime) (status : String)
    (hnodup : (s.terminal_runtime.map (·.1)).Nodup)
    (hrt : assocLookup s.terminal_runtime id = some rt)
    (hexit : rt.child_exit = some status) :
    assocLookup (pollPass s).runtimes id =
      some { rt with
             chan := [],
             parser_fed := (rt.parser_fed ++ rt.chan.flatten) ++ strBytes (exitLine status) } ∧
    id ∈ (pollPass s).to_remove ∧
    assocLookup (handlePoll s).terminal_runtime id = none ∧
    (∀ t ∈ (handlePoll s).terminal_tabs, t.id = id → t.connected = false) := by
  have hmem : id ∈ s.terminal_runtime.map (·.1) := assocLookup_mem_keys _ _ _ hrt
  obtain ⟨l1, l2, hsplit⟩ := List.append_of_mem hmem
  have hnotl1 : id ∉ l1 := by
    rw [hsplit] at hnodup
    have := (List.nodup_append.mp hnodup).2.2
    intro hin
    exact this hin (List.mem_cons_self id l2)
  have hnotl2 : id ∉ l2 := by
    rw [hsplit] at hnodup
    exact (List.nodup_cons.mp (List.nodup_append.mp hnodup).2.1).1
  set act := s.active_tab.bind (fun idx => (s.terminal_tabs.get? idx).map (·.id)) with hactdef
  set f := pollOne s.terminal_tabs act with hfdef
  set acc0 : PollAcc := ⟨s.terminal_runtime, [], false, false⟩ with hacc0def
  set acc1 := l1.foldl f acc0 with hacc1def
  set acc2 := f acc1 id with hacc2def
  have hpass : pollPass s = l2.foldl f acc2 := by
    unfold pollPass
    rw [hacc2def, hacc1def, hfdef, hactdef, hacc0def, hsplit, List.foldl_append,
      List.foldl_cons]
  have hafter1 := pollFold_not_mem s.terminal_tabs act l1 acc0 id hnotl1
  have hself := pollOne_self s.terminal_tabs act acc1 id rt status
    (hafter1.1.trans hrt) hexit
  have hafter2 := pollFold_not_mem s.terminal_tabs act l2 acc2 id hnotl2
  have hlook : assocLookup (pollPass s).runtimes id =
      some { rt with
             chan := [],
             parser_fed := (rt.parser_fed ++ rt.chan.flatten) ++ strBytes (exitLine status) } := by
    rw [hpass]
    exact hafter2.1.trans hself.1
  have hrem : id ∈ (pollPass s).to_remove := by
    rw [hpass]
    exact hafter2.2.mpr hself.2
  refine ⟨hlook, hrem, ?_, ?_⟩
  · rw [handlePoll_runtime]
    exact assocRemove_fold_none _ _ _ hrem
  · rw [handlePoll_tabs]
    exact markDisconnected_fold _ _ _ hrem

/-- Witness for claim C6 at a concrete state with an exited relay child
and queued output. -/
theorem claim_c6_poll_exit_witness :
    ((stExited.terminal_runtime.map (·.1)).Nodup ∧
     assocLookup stExited.terminal_runtime 7 = some rtExited ∧
     rtExited.child_exit = some "exit status: 0") ∧
    (assocLookup (pollPass stExited).runtimes 7 =
      some { rtExited with
             chan := [],
             parser_fed := (rtExited.parser_fed ++ rtExited.chan.flatten)
               ++ strBytes (exitLine "exit status: 0") } ∧
     7 ∈ (pollPass stExited).to_remove ∧
     assocLookup (handlePoll stExited).terminal_runtime 7 = none ∧
     (∀ t ∈ (handlePoll stExited).terminal_tabs, t.id = 7 → t.connected = false)) :=
  ⟨⟨by decide, rfl, rfl⟩,
   claim_c6_poll_exit stExited 7 rtExited "exit status: 0" (by decide) rfl rfl⟩

/-! ## Claim C5: search highlighting -/

theorem findSub_le (pat : List Char) :
    ∀ (l : List Char) (r : Nat), findSub pat l = some r → r + pat.length ≤ l.length := by
  intro l
  induction l with
  | nil =>
    intro r h
    unfold findSub at h
    split at h
    · next hp =>
      have : pat = [] := by
        cases pat with
        | nil => rfl
        | cons a t => simp [List.isPrefixOf] at hp
      simp [this] at h ⊢
      omega
    · simp at h
  | cons c t ih =>
    intro r h
    unfold findSub at h
    split at h
    · next hp =>
      have hle : pat.length ≤ (c :: t).length := List.IsPrefix.length_le
        (List.isPrefixOf_iff_prefix.mp hp)
      simp at h
      omega
    · rcases hmap : findSub pat t with _ | r0
      · rw [hmap] at h; simp at h
      · rw [hmap] at h
        simp at h
        have := ih r0 hmap
        simp
        omega

theorem findSub_cons (pat : List Char) (c : Char) (t : List Char) :
    findSub pat (c :: t) =
      if pat.isPrefixOf (c :: t) = true then some 0
      else (findSub pat t).map (· + 1) := rfl

theorem findSub_some_hit (pat : List Char) :
    ∀ (l : List Char) (r : Nat), findSub pat l = some r →
      pat.isPrefixOf (l.drop r) = true := by
  intro l
  induction l with
  | nil =>
    intro r h
    unfold findSub at h
    split at h
    · next hp =>
      simp at h
      subst h
      simpa using hp
    · simp at h
  | cons c t ih =>
    intro r h
    rw [findSub_cons] at h
    split at h
    · next hp =>
      simp at h
      subst h
      simpa using hp
    · rcases hmap : findSub pat t with _ | r0
      · rw [hmap] at h
        simp at h
      · rw [hmap] at h
        simp at h
        subst h
        rw [List.drop_succ_cons]
        exact ih r0 hmap

theorem findSub_some_min (pat : List Char) :
    ∀ (l : List Char) (r : Nat), findSub pat l = some r →
      ∀ j, j < r → pat.isPrefixOf (l.drop j) = false := by
  intro l
  induction l with
  | nil =>
    intro r h j hj
    unfold findSub at h
    split at h
    · simp at h
      omega
    · simp at h
  | cons c t ih =>
    intro r h j hj
    rw [findSub_cons] at h
    split at h
    · simp at h
      omega
    · next hp =>
      rcases hmap : findSub pat t with _ | r0
      · rw [hmap] at h
        simp at h
      · rw [hmap] at h
        simp at h
        subst h
        cases j with
        | zero =>
          simp only [List.drop_zero]
          cases hb : pat.isPrefixOf (c :: t)
          · rfl
          · exact absurd hb hp
        | succ j0 =>
          rw [List.drop_succ_cons]
          exact ih r0 hmap j0 (by omega)

theorem containsSub_take_eq_false (pat : List Char) (hpat : pat ≠ [])
    (l : List Char) (r : Nat) (h : findSub pat l = some r) :
    containsSub pat (l.take r) = false := by
  unfold containsSub
  cases hf : findSub pat (l.take r) with
  | none => rfl
  | some p =>
    exfalso
    have hle : p + pat.length ≤ (l.take r).length := findSub_le pat _ p hf
    have hlen : (l.take r).length ≤ r := by
      rw [List.length_take]
      omega
    have hp1 : 1 ≤ pat.length := by
      cases hpp : pat with
      | nil => exact absurd hpp hpat
      | cons a t => simp
    have hpr : pat.isPrefixOf ((l.take r).drop p) = true := findSub_some_hit pat _ p hf
    have hdt : (l.take r).drop p = (l.drop p).take (r - p) := List.drop_take ..
    have hpfx : pat <+: (l.drop p).take (r - p) := by
      rw [← hdt]
      exact List.isPrefixOf_iff_prefix.mp hpr
    obtain ⟨u, hu⟩ := hpfx
    have hpfx2 : pat <+: l.drop p :=
      ⟨u ++ (l.drop p).drop (r - p), by rw [← List.append_assoc, hu, List.take_append_drop]⟩
    have htrue : pat.isPrefixOf (l.drop p) = true := List.isPrefixOf_iff_prefix.mpr hpfx2
    have hfalse := findSub_some_min pat l r h p (by omega)
    rw [htrue] at hfalse
    simp at hfalse

theorem countOcc_cons_pos (pat : List Char) (c : Char) (t : List Char)
    (h1 : pat ≠ []) (h2 : pat.isPrefixOf (c :: t) = true) :
    countOcc pat (c :: t) = 1 + countOcc pat ((c :: t).drop pat.length) := by
  rw [countOcc.eq_def]
  exact dif_pos ⟨h1, h2⟩

theorem countOcc_cons_neg (pat : List Char) (c : Char) (t : List Char)
    (h : ¬(pat ≠ [] ∧ pat.isPrefixOf (c :: t) = true)) :
    countOcc pat (c :: t) = countOcc pat t := by
  rw [countOcc.eq_def]
  exact dif_neg h

theorem countOcc_nil (pat : List Char) : countOcc pat [] = 0 := by
  rw [countOcc.eq_def]

theorem countOcc_findSub (ql : List Char) (hql : ql ≠ []) :
    ∀ tl : List Char,
    countOcc ql tl = (match findSub ql tl with
      | none => 0
      | some rel => 1 + countOcc ql (tl.drop (rel + ql.length))) := by
  intro tl
  induction tl with
  | nil =>
    cases ql with
    | nil => exact absurd rfl hql
    | cons a l =>
      rw [countOcc_nil]
      rfl
  | cons c t ih =>
    by_cases hp : ql.isPrefixOf (c :: t) = true
    · rw [countOcc_cons_pos ql c t hql hp,
        show findSub ql (c :: t) = some 0 by rw [findSub_cons, if_pos hp]]
      simp
    · rw [countOcc_cons_neg ql c t (fun hcon => hp hcon.2),
        show findSub ql (c :: t) = (findSub ql t).map (· + 1) by
          rw [findSub_cons, if_neg hp],
        ih]
      rcases hmap : findSub ql t with _ | r0
      · simp [hmap]
      · simp only [hmap, Option.map_some']
        have harith : r0 + 1 + ql.length = (r0 + ql.length) + 1 := by omega
        rw [harith, List.drop_succ_cons]

theorem data_mk (cs : List Char) : (String.mk cs).data = cs := rfl

theorem hlLoop_spec (hc base : Color) (ql : List Char) (hql : ql ≠ []) :
    ∀ (fuel : Nat) (text tl : List Char), tl = text.map Char.toLower →
    text.length < fuel →
    (hlLoop hc base ql fuel text tl).2 = countOcc ql tl ∧
    ((hlLoop hc base ql fuel text tl).1.map (fun sp => sp.text.data)).flatten = text := by
  intro fuel
  induction fuel with
  | zero => intro text tl _ h; omega
  | succ n ih =>
    intro text tl htl hlen
    cases text with
    | nil =>
      subst htl
      simp [hlLoop, countOcc]
    | cons c t =>
      rcases hfind : findSub ql tl with _ | rel
      · rw [show hlLoop hc base ql (n + 1) (c :: t) tl =
            ([Span.colored (String.mk (c :: t)) base], 0) by
          conv_lhs => rw [hlLoop.eq_def]
          simp only [hfind]]
        rw [countOcc_findSub ql hql, hfind]
        simp [Span.colored, data_mk]
      · have hle : rel + ql.length ≤ tl.length := findSub_le ql tl rel hfind
        have hlentl : tl.length = (c :: t).length := by rw [htl]; simp
        have hnot : ¬(rel + ql.length > (c :: t).length) := by omega
        have hql1 : 1 ≤ ql.length := by
          cases ql with
          | nil => exact absurd rfl hql
          | cons a l => simp
        have ihres := ih ((c :: t).drop (rel + ql.length)) (tl.drop (rel + ql.length))
          (by rw [htl, List.map_drop])
          (by
            rw [List.length_drop]
            simp only [List.length_cons] at hlen hlentl ⊢
            omega)
        rw [show hlLoop hc base ql (n + 1) (c :: t) tl =
            ((if 0 < rel then [Span.colored (String.mk ((c :: t).take rel)) base] else [])
              ++ [Span.colored (String.mk (((c :: t).drop rel).take ql.length)) hc]
              ++ (hlLoop hc base ql n ((c :: t).drop (rel + ql.length))
                  (tl.drop (rel + ql.length))).1,
             (hlLoop hc base ql n ((c :: t).drop (rel + ql.length))
                  (tl.drop (rel + ql.length))).2 + 1) by
          conv_lhs => rw [hlLoop.eq_def]
          simp only [hfind, if_neg hnot]]
        constructor
        · rw [countOcc_findSub ql hql, hfind]
          show (hlLoop hc base ql n ((c :: t).drop (rel + ql.length))
              (tl.drop (rel + ql.length))).2 + 1 =
            1 + countOcc ql (tl.drop (rel + ql.length))
          rw [ihres.1]
          omega

        · simp only [List.map_append, List.flatten_append, ihres.2]
          have hdropdrop : (c :: t).drop (rel + ql.length) =
              (((c :: t).drop rel).drop ql.length) := by
            rw [List.drop_drop]
            try congr 1
            try omega
          have hsplit2 : List.take ql.length (List.drop rel (c :: t)) ++
              List.drop (rel + ql.length) (c :: t) = List.drop rel (c :: t) := by
            rw [hdropdrop, List.take_append_drop]
          rcases Nat.eq_zero_or_pos rel with h0 | hpos
          · subst h0
            rw [if_neg (by omega)]
            simp only [List.map_nil, List.flatten_nil, List.nil_append,
              List.map_cons, List.flatten_cons, List.append_nil, Span.colored,
              data_mk]
            rw [hsplit2]
            simp
          · rw [if_pos hpos]
            simp only [List.map_cons, List.map_nil, List.flatten_cons,
              List.flatten_nil, List.append_nil, Span.colored, data_mk]
            rw [List.append_assoc, hsplit2, List.take_append_drop]

theorem hlSpan_spec (hc dc : Color) (ql : List Char) (hql : ql ≠ []) (sp : Span) :
    (hlSpan hc dc ql sp).2 = countOcc ql (sp.text.data.map Char.toLower) ∧
    ((hlSpan hc dc ql sp).1.map (fun x => x.text.data)).flatten = sp.text.data := by
  unfold hlSpan
  by_cases hcon : containsSub ql (sp.text.data.map Char.toLower) = true
  · rw [if_pos hcon]
    exact hlLoop_spec hc (sp.color.getD dc) ql hql (sp.text.data.length + 1)
      sp.text.data _ rfl (by omega)
  · rw [if_neg hcon]
    have hnone : findSub ql (sp.text.data.map Char.toLower) = none := by
      unfold containsSub at hcon
      cases h : findSub ql (sp.text.data.map Char.toLower) with
      | none => rfl
      | some r => rw [h] at hcon; simp at hcon
    rw [countOcc_findSub ql hql, hnone]
    simp

theorem hlLoop_alt (hc base : Color) (ql : List Char) (hql : ql ≠ []) :
    ∀ (fuel : Nat) (text tl : List Char), tl = text.map Char.toLower →
    text.length < fuel →
    AltRuns hc base ql (hlLoop hc base ql fuel text tl).1 := by
  intro fuel
  induction fuel with
  | zero => intro text tl _ h; omega
  | succ n ih =>
    intro text tl htl hlen
    cases text with
    | nil =>
      rw [show hlLoop hc base ql (n + 1) [] tl = ([], 0) from rfl]
      exact AltRuns.nil
    | cons c t =>
      rcases hfind : findSub ql tl with _ | rel
      · rw [show hlLoop hc base ql (n + 1) (c :: t) tl =
            ([Span.colored (String.mk (c :: t)) base], 0) by
          conv_lhs => rw [hlLoop.eq_def]
          simp only [hfind]]
        refine AltRuns.tail (c :: t) (by simp) ?_
        unfold containsSub
        rw [← htl, hfind]
        rfl
      · have hle : rel + ql.length ≤ tl.length := findSub_le ql tl rel hfind
        have hlentl : tl.length = (c :: t).length := by rw [htl]; simp
        have hnot : ¬(rel + ql.length > (c :: t).length) := by omega
        have hql1 : 1 ≤ ql.length := by
          cases ql with
          | nil => exact absurd rfl hql
          | cons a l => simp
        have ihres := ih ((c :: t).drop (rel + ql.length)) (tl.drop (rel + ql.length))
          (by rw [htl, List.map_drop])
          (by
            rw [List.length_drop]
            simp only [List.length_cons] at hlen hlentl ⊢
            omega)
        rw [show hlLoop hc base ql (n + 1) (c :: t) tl =
            ((if 0 < rel then [Span.colored (String.mk ((c :: t).take rel)) base] else [])
              ++ [Span.colored (String.mk (((c :: t).drop rel).take ql.length)) hc]
              ++ (hlLoop hc base ql n ((c :: t).drop (rel + ql.length))
                  (tl.drop (rel + ql.length))).1,
             (hlLoop hc base ql n ((c :: t).drop (rel + ql.length))
                  (tl.drop (rel + ql.length))).2 + 1) by
          conv_lhs => rw [hlLoop.eq_def]
          simp only [hfind, if_neg hnot]]
        have hm : ((((c :: t)).drop rel).take ql.length).map Char.toLower = ql := by
          rw [List.map_take, List.map_drop, ← htl]
        -- the query lowercases back to itself at the match position
          have hpref := List.isPrefixOf_iff_prefix.mp
            (findSub_some_hit ql tl rel hfind)
          exact (List.prefix_iff_eq_take.mp hpref).symm
        have hno : containsSub ql (((c :: t).take rel).map Char.toLower) = false := by
          rw [List.map_take, ← htl]
          exact containsSub_take_eq_false ql hql tl rel hfind
        have hshape :
            (if 0 < rel then [Span.colored (String.mk ((c :: t).take rel)) base] else [])
              ++ [Span.colored (String.mk (((c :: t).drop rel).take ql.length)) hc]
              ++ (hlLoop hc base ql n ((c :: t).drop (rel + ql.length))
                  (tl.drop (rel + ql.length))).1
            = (if 0 < ((c :: t).take rel).length
                then [Span.colored (String.mk ((c :: t).take rel)) base] else [])
              ++ Span.colored (String.mk (((c :: t).drop rel).take ql.length)) hc
                :: (hlLoop hc base ql n ((c :: t).drop (rel + ql.length))
                  (tl.drop (rel + ql.length))).1 := by
          have hlt : ((c :: t).take rel).length = rel := by
            rw [List.length_take]
            simp only [List.length_cons] at hlentl ⊢
            omega
          rw [hlt]
          simp
        rw [hshape]
        exact AltRuns.block _ _ _ hm hno ihres

theorem hlSpan_alt (hc dc : Color) (ql : List Char) (hql : ql ≠ []) (sp : Span)
    (hcon : containsSub ql (sp.text.data.map Char.toLower) = true) :
    AltRuns hc (sp.color.getD dc) ql (hlSpan hc dc ql sp).1 := by
  unfold hlSpan
  rw [if_pos hcon]
  exact hlLoop_alt hc (sp.color.getD dc) ql hql (sp.text.data.length + 1)
    sp.text.data _ rfl (by omega)

theorem applySearchHighlight_fold (hc dc : Color) (ql : List Char) :
    ∀ (spans : List Span) (acc : List Span × Nat),
    spans.foldl (fun acc sp =>
      let r := hlSpan hc dc ql sp
      (acc.1 ++ r.1, acc.2 + r.2)) acc =
    (acc.1 ++ (spans.map (fun sp => (hlSpan hc dc ql sp).1)).flatten,
     acc.2 + (spans.map (fun sp => (hlSpan hc dc ql sp).2)).sum) := by
  intro spans
  induction spans with
  | nil => intro acc; simp
  | cons sp rest ih =>
    intro acc
    rw [List.foldl_cons, ih]
    simp [List.append_assoc]
    omega

/-- Claim C5: with an empty query, search highlighting returns the run list
unchanged with count 0; with a non-empty query the output is exactly the
per-run concatenation of each run's highlighting and the count is the
per-run sum; every run whose lowercase text does not contain the lowercase
query passes through unchanged as itself; every run whose lowercase text
does contain it is re-split into alternating unmatched and matched sub-runs
whose texts concatenate back to the run's text; the returned count equals
the total number of (non-overlapping) matches over all runs; re-splitting
preserves the text; and the single run "hello world hello" with query
"hello" yields exactly 2 highlighted sub-runs and match count 2. -/
theorem claim_c5_search_highlight :
    (∀ (spans : List Span) (hc dc : Color),
      applySearchHighlight spans "" hc dc = (spans, 0)) ∧
    (∀ (spans : List Span) (q : String) (hc dc : Color), q ≠ "" →
      applySearchHighlight spans q hc dc =
        ((spans.map (fun sp => (hlSpan hc dc (q.data.map Char.toLower) sp).1)).flatten,
         (spans.map (fun sp => (hlSpan hc dc (q.data.map Char.toLower) sp).2)).sum)) ∧
    (∀ (sp : Span) (q : String) (hc dc : Color),
      containsSub (q.data.map Char.toLower) (sp.text.data.map Char.toLower) = false →
      hlSpan hc dc (q.data.map Char.toLower) sp = ([sp], 0)) ∧
    (∀ (sp : Span) (q : String) (hc dc : Color), q ≠ "" →
      containsSub (q.data.map Char.toLower) (sp.text.data.map Char.toLower) = true →
      AltRuns hc (sp.color.getD dc) (q.data.map Char.toLower)
        (hlSpan hc dc (q.data.map Char.toLower) sp).1 ∧
      ((hlSpan hc dc (q.data.map Char.toLower) sp).1.map
        (fun x => x.text.data)).flatten = sp.text.data) ∧
    (∀ (spans : List Span) (q : String) (hc dc : Color), q ≠ "" →
      (applySearchHighlight spans q hc dc).2 =
        (spans.map (fun sp => countOcc (q.data.map Char.toLower)
          (sp.text.data.map Char.toLower))).sum) ∧
    (∀ (spans : List Span) (q : String) (hc dc : Color),
      ((applySearchHighlight spans q hc dc).1.map (fun sp => sp.text.data)).flatten =
        (spans.map (fun sp => sp.text.data)).flatten) ∧
    (applySearchHighlight [helloSpan] "hello" hlColor baseColor =
      ([Span.colored "hello" hlColor, Span.colored " world " baseColor,
        Span.colored "hello" hlColor], 2) ∧
     ((applySearchHighlight [helloSpan] "hello" hlColor baseColor).1.filter
        (fun sp => sp.color = some hlColor)).length = 2) := by
  have hql_ne : ∀ q : String, q ≠ "" → q.data.map Char.toLower ≠ [] := by
    intro q hq h
    apply hq
    have : q.data = [] := by
      cases hd : q.data with
      | nil => rfl
      | cons a t => rw [hd] at h; simp at h
    cases q
    simp_all
  refine ⟨?_, ?_, ?_, ?_, ?_, ?_, ?_, ?_⟩
  · intro spans hc dc
    simp [applySearchHighlight]
  · intro spans q hc dc hq
    rw [show applySearchHighlight spans q hc dc =
        ([] ++ ((spans.map (fun sp => (hlSpan hc dc (q.data.map Char.toLower) sp).1)).flatten),
         0 + (spans.map (fun sp => (hlSpan hc dc (q.data.map Char.toLower) sp).2)).sum) by
      unfold applySearchHighlight
      rw [if_neg hq]
      exact applySearchHighlight_fold hc dc (q.data.map Char.toLower) spans ([], 0)]
    simp
  · intro sp q hc dc hcon
    unfold hlSpan
    rw [if_neg (by rw [hcon]; simp)]
  · intro sp q hc dc hq hcon
    exact ⟨hlSpan_alt hc dc (q.data.map Char.toLower) (hql_ne q hq) sp hcon,
      (hlSpan_spec hc dc (q.data.map Char.toLower) (hql_ne q hq) sp).2⟩
  · intro spans q hc dc hq
    rw [show applySearchHighlight spans q hc dc =
        ([] ++ ((spans.map (fun sp => (hlSpan hc dc (q.data.map Char.toLower) sp).1)).flatten),
         0 + (spans.map (fun sp => (hlSpan hc dc (q.data.map Char.toLower) sp).2)).sum) by
      unfold applySearchHighlight
      rw [if_neg hq]
      exact applySearchHighlight_fold hc dc (q.data.map Char.toLower) spans ([], 0)]
    simp only [Nat.zero_add]
    congr 1
    apply List.map_congr_left
    intro sp _
    exact (hlSpan_spec hc dc (q.data.map Char.toLower) (hql_ne q hq) sp).1
  · intro spans q hc dc
    by_cases hq : q = ""
    · subst hq
      simp [applySearchHighlight]
    · rw [show applySearchHighlight spans q hc dc =
          ([] ++ (spans.map (fun sp => (hlSpan hc dc (q.data.map Char.toLower) sp).1)).flatten,
           0 + (spans.map (fun sp => (hlSpan hc dc (q.data.map Char.toLower) sp).2)).sum) by
        unfold applySearchHighlight
        rw [if_neg hq]
        exact applySearchHighlight_fold hc dc (q.data.map Char.toLower) spans ([], 0)]
      simp only [List.nil_append]
      induction spans with
      | nil => simp
      | cons sp rest ihs =>
        simp only [List.map_cons, List.flatten_cons, List.map_append,
          List.flatten_append]
        rw [(hlSpan_spec hc dc (q.data.map Char.toLower) (hql_ne q hq) sp).2, ihs]
  · with_unfolding_all rfl
  · with_unfolding_all rfl

/-- Witness for claim C5 at the concrete "hello world hello" run: the
matching run is re-split into an alternating structure whose sub-run texts
concatenate back to the run's text, and the count is the per-run sum. -/
theorem claim_c5_search_highlight_witness :
    (AltRuns hlColor (helloSpan.color.getD baseColor) ("hello".data.map Char.toLower)
        (hlSpan hlColor baseColor ("hello".data.map Char.toLower) helloSpan).1 ∧
      ((hlSpan hlColor baseColor ("hello".data.map Char.toLower) helloSpan).1.map
        (fun x => x.text.data)).flatten = helloSpan.text.data) ∧
    (applySearchHighlight [helloSpan] "hello" hlColor baseColor).2 =
      ([helloSpan].map (fun sp => countOcc ("hello".data.map Char.toLower)
        (sp.text.data.map Char.toLower))).sum :=
  ⟨claim_c5_search_highlight.2.2.2.1 helloSpan "hello" hlColor baseColor (by decide)
      (by with_unfolding_all rfl),
   claim_c5_search_highlight.2.2.2.2.1 [helloSpan] "hello" hlColor baseColor (by decide)⟩

/-! ## Claims C3 and C4: screen renderer -/

theorem str_append_ne (a b : String) (h : b ≠ "") : a ++ b ≠ "" := by
  intro hc
  apply h
  have hdata : a.data ++ b.data = [] := by
    rw [← String.data_append, hc]
  have hb : b.data = [] := (List.append_eq_nil.mp hdata).2
  cases b
  simp_all

theorem styleProj_inj (a b : TermSpanStyle) (h : styleProj a = styleProj b) : a = b := by
  cases a
  cases b
  simp only [styleProj, Prod.mk.injEq, Option.some.injEq] at h
  simp_all

theorem cellContent_ne (cell : Cell) :
    (if cell.contents = "" then " " else cell.contents) ≠ "" := by
  split
  · decide
  · assumption

theorem processCell_inv (d : Color) (st : RenderState) (cell? : Option Cell)
    (h : RenderInv st) : RenderInv (processCell d st cell?) := by
  match cell? with
  | none => exact h
  | some cell =>
    show RenderInv (if cell.wide_continuation then st else _)
    by_cases hcont : cell.wide_continuation
    · rw [if_pos hcont]; exact h
    · rw [if_neg hcont]
      by_cases hflush : cellStyle d cell ≠ st.current_style ∧ st.current_text ≠ ""
      · rw [if_pos hflush]
        constructor
        · rw [List.chain'_append]
          refine ⟨h.1, List.chain'_singleton _, ?_⟩
          intro x hx y hy
          simp only [List.head?_cons, Option.mem_def, Option.some.injEq] at hy
          subst hy
          exact (h.2 x hx).2
        · intro l hl
          rw [List.getLast?_concat] at hl
          cases hl
          constructor
          · exact str_append_ne _ _ (cellContent_ne cell)
          · show styleProj st.current_style ≠ styleProj (cellStyle d cell)
            intro hc
            exact hflush.1 (styleProj_inj _ _ hc).symm
      · rw [if_neg hflush]
        constructor
        · exact h.1
        · intro l hl
          have h2 := h.2 l hl
          constructor
          · exact str_append_ne _ _ (cellContent_ne cell)
          · rcases not_and_or.mp hflush with hs | ht
            · have : cellStyle d cell = st.current_style := not_not.mp hs
              rw [this]
              exact h2.2
            · exact absurd (not_not.mp ht) h2.1

theorem cellFold_inv (d : Color) (screen : Screen) (row : Nat) :
    ∀ (cols : List Nat) (st : RenderState), RenderInv st →
    RenderInv (cols.foldl (fun acc col => processCell d acc (screen.cellAt row col)) st) := by
  intro cols
  induction cols with
  | nil => intro st h; exact h
  | cons c cs ih =>
    intro st h
    exact ih _ (processCell_inv d st _ h)

theorem newline_inv (st : RenderState) (h : RenderInv st) :
    RenderInv { st with current_text := st.current_text ++ "\n" } := by
  constructor
  · exact h.1
  · intro l hl
    exact ⟨str_append_ne _ _ (by decide), (h.2 l hl).2⟩

theorem processRow_inv (d : Color) (screen : Screen) (row : Nat)
    (st : RenderState) (h : RenderInv st) :
    RenderInv (processRow d screen row st) := by
  unfold processRow
  split
  · exact newline_inv _ (cellFold_inv d screen row _ st h)
  · exact cellFold_inv d screen row _ st h

theorem rowFold_inv (d : Color) (screen : Screen) :
    ∀ (rows : List Nat) (st : RenderState), RenderInv st →
    RenderInv (rows.foldl (fun acc row => processRow d screen row acc) st) := by
  intro rows
  induction rows with
  | nil => intro st h; exact h
  | cons r rs ih =>
    intro st h
    exact ih _ (processRow_inv d screen r st h)

/-- Counterexample to claim C4 as stated: on the 2-row, 1-column screen
with rows "a" and "b" in one uniform style, the renderer emits a single
styled run "a\nb" holding the cells of both rows — the end of a row does
not flush the current run, it only appends a newline to it. -/
theorem claim_c4_counterexample :
    buildTerminalSpans screenTwoRows defaultColorW =
      [spanFromStyle ("a" ++ "\n" ++ "b") styleW] ∧
    rowText screenTwoRows 0 = "a" ∧ rowText screenTwoRows 1 = "b" ∧
    screenTwoRows.rows = 2 := by
  refine ⟨?_, ?_, ?_, rfl⟩ <;> with_unfolding_all rfl

/-- Claim C4 (amended): the renderer flushes the current styled run at
each style change only — consecutive runs in the output always carry
different styles (runs of identical consecutive style are coalesced); a
row boundary does not flush, it appends a newline into the current run, so
a run may contain cells from more than one row. -/
theorem claim_c4_style_coalescing (screen : Screen) (d : Color) :
    (buildTerminalSpans screen d).Chain' (fun a b => a.styleOf ≠ b.styleOf) := by
  simp only [buildTerminalSpans]
  set stf := (List.range screen.rows).foldl
    (fun st row => processRow d screen row st)
    ⟨[], "", ⟨d, none, false, false, false⟩⟩ with hstf
  have hinv : RenderInv stf :=
    rowFold_inv d screen _ _ ⟨List.chain'_nil, by intro l hl; simp at hl⟩
  by_cases htext : stf.current_text ≠ ""
  · rw [if_pos htext]
    have hchain : (stf.spans ++ [spanFromStyle stf.current_text stf.current_style]).Chain'
        (fun a b => a.styleOf ≠ b.styleOf) := by
      rw [List.chain'_append]
      refine ⟨hinv.1, List.chain'_singleton _, ?_⟩
      intro x hx y hy
      simp only [List.head?_cons, Option.mem_def, Option.some.injEq] at hy
      subst hy
      exact (hinv.2 x hx).2
    split
    · exact List.chain'_singleton _
    · exact hchain
  · rw [if_neg htext]
    split
    · exact List.chain'_singleton _
    · exact hinv.1

theorem str_append_empty (s : String) : s ++ "" = s := by
  apply String.ext
  rw [String.data_append]
  simp [String.data]

theorem str_empty_append (s : String) : "" ++ s = s := by
  apply String.ext
  rw [String.data_append]
  simp [String.data]

theorem str_append_assoc (a b c : String) : (a ++ b) ++ c = a ++ (b ++ c) := by
  apply String.ext
  simp [String.data_append, List.append_assoc]

theorem processCell_some_noflush (d : Color) (st : RenderState) (cell : Cell)
    (hcont : cell.wide_continuation = false)
    (hnf : ¬(cellStyle d cell ≠ st.current_style ∧ st.current_text ≠ "")) :
    processCell d st (some cell) =
      { spans := st.spans
        current_text := st.current_text ++ (if cell.contents = "" then " " else cell.contents)
        current_style := cellStyle d cell } := by
  simp only [processCell]
  rw [if_neg (show ¬cell.wide_continuation = true by rw [hcont]; exact Bool.false_ne_true)]
  rw [if_neg hnf]

theorem processCell_cont (d : Color) (st : RenderState) (cell : Cell)
    (hw : cell.wide_continuation = true) :
    processCell d st (some cell) = st := by
  simp only [processCell]
  rw [if_pos hw]

theorem cellFold_uniform (screen : Screen) (d : Color) (S : TermSpanStyle) (row : Nat) :
    ∀ (k : Nat) (st : RenderState),
    (∀ c, c < k → ∃ cell, screen.cellAt row c = some cell ∧
      (cell.wide_continuation = false → cellStyle d cell = S)) →
    (0 < k → ∃ cell0, screen.cellAt row 0 = some cell0 ∧
      cell0.wide_continuation = false) →
    st.spans = [] →
    (st.current_text = "" ∨ st.current_style = S) →
    ((List.range k).foldl (fun acc col => processCell d acc (screen.cellAt row col)) st).spans
        = [] ∧
    ((List.range k).foldl (fun acc col => processCell d acc (screen.cellAt row col))
        st).current_text = st.current_text ++ rowTextUpTo screen row k ∧
    (0 < k → ((List.range k).foldl (fun acc col => processCell d acc (screen.cellAt row col))
        st).current_style = S) ∧
    (((List.range k).foldl (fun acc col => processCell d acc (screen.cellAt row col))
        st).current_text = ""
      ∨ ((List.range k).foldl (fun acc col => processCell d acc (screen.cellAt row col))
        st).current_style = S) := by
  intro k
  induction k with
  | zero =>
    intro st hall hlead hspans hdisj
    refine ⟨hspans, ?_, fun h => absurd h (Nat.lt_irrefl 0), hdisj⟩
    rw [show rowTextUpTo screen row 0 = "" from rfl, str_append_empty]
    rfl
  | succ n ih =>
    intro st hall hlead hspans hdisj
    obtain ⟨cell, hcell, hstyleimp⟩ := hall n (by omega)
    have ihres := ih st (fun c hc => hall c (by omega)) (fun _ => hlead (by omega))
      hspans hdisj
    rw [List.range_succ, List.foldl_append, List.foldl_cons, List.foldl_nil]
    set st1 := (List.range n).foldl
      (fun acc col => processCell d acc (screen.cellAt row col)) st with hst1
    cases hwc : cell.wide_continuation with
    | true =>
      rw [hcell, processCell_cont d st1 cell hwc]
      have hnpos : 0 < n := by
        rcases Nat.eq_zero_or_pos n with h0 | h
        · exfalso
          obtain ⟨cell0, hcell0, hreal⟩ := hlead (by omega)
          subst h0
          rw [hcell0] at hcell
          injection hcell with heq
          rw [heq] at hreal
          rw [hreal] at hwc
          exact Bool.false_ne_true hwc
        · exact h
      refine ⟨ihres.1, ?_, fun _ => ihres.2.2.1 hnpos, ihres.2.2.2⟩
      rw [ihres.2.1,
        show rowTextUpTo screen row (n + 1) = rowTextUpTo screen row n ++
          (match screen.cellAt row n with
           | none => ""
           | some c => cellText c) from rfl,
        hcell]
      show st.current_text ++ rowTextUpTo screen row n =
        st.current_text ++ (rowTextUpTo screen row n ++ cellText cell)
      rw [show cellText cell = "" by
        unfold cellText
        rw [if_pos hwc], str_append_empty]
    | false =>
      have hstyle := hstyleimp hwc
      have hnf : ¬(cellStyle d cell ≠ st1.current_style ∧ st1.current_text ≠ "") := by
        rcases ihres.2.2.2 with h | h
        · exact fun hc => hc.2 h
        · exact fun hc => hc.1 (by rw [hstyle, h])
      rw [hcell, processCell_some_noflush d st1 cell hwc hnf]
      refine ⟨ihres.1, ?_, fun _ => hstyle, Or.inr hstyle⟩
      show st1.current_text ++ (if cell.contents = "" then " " else cell.contents) =
        st.current_text ++ rowTextUpTo screen row (n + 1)
      rw [ihres.2.1,
        show rowTextUpTo screen row (n + 1) = rowTextUpTo screen row n ++
          (match screen.cellAt row n with
           | none => ""
           | some c => cellText c) from rfl,
        hcell, str_append_assoc]
      show _ ++ _ = _ ++ (_ ++ cellText cell)
      rw [show cellText cell = (if cell.contents = "" then " " else cell.contents) by
        unfold cellText
        rw [if_neg (by rw [hwc]; exact Bool.false_ne_true)]]

theorem rowFold_zero_cols (screen : Screen) (d : Color) (hcols : screen.cols = 0) :
    ∀ (k : Nat) (st : RenderState),
    ((List.range k).foldl (fun acc row => processRow d screen row acc) st).spans = st.spans ∧
    ((List.range k).foldl (fun acc row => processRow d screen row acc) st).current_text
      = st.current_text ++ screenTextUpTo screen k ∧
    ((List.range k).foldl (fun acc row => processRow d screen row acc) st).current_style
      = st.current_style := by
  intro k
  induction k with
  | zero =>
    intro st
    exact ⟨rfl, (str_append_empty _).symm, rfl⟩
  | succ n ih =>
    intro st
    rw [List.range_succ, List.foldl_append, List.foldl_cons, List.foldl_nil]
    have ihres := ih st
    set st1 := (List.range n).foldl (fun acc row => processRow d screen row acc) st with hst1
    have hrowtext : rowText screen n = "" := by
      unfold rowText
      rw [hcols]
      rfl
    have hcellfold : (List.range screen.cols).foldl
        (fun acc col => processCell d acc (screen.cellAt n col)) st1 = st1 := by
      rw [hcols]
      rfl
    unfold processRow
    rw [hcellfold]
    have hscreentext : screenTextUpTo screen (n + 1) =
        screenTextUpTo screen n ++ rowText screen n ++
          (if n < screen.rows - 1 then "\n" else "") := rfl
    split
    · refine ⟨ihres.1, ?_, ihres.2.2⟩
      show st1.current_text ++ "\n" = _
      rw [ihres.2.1, hscreentext, hrowtext, str_append_empty, str_append_assoc]
      next hlt =>
      rw [if_pos hlt]
    · refine ⟨ihres.1, ?_, ihres.2.2⟩
      rw [ihres.2.1, hscreentext, hrowtext, str_append_empty]
      next hlt =>
      rw [if_neg hlt, str_append_empty]

theorem rowFold_uniform (screen : Screen) (d : Color) (S : TermSpanStyle)
    (hwf : screen.WF)
    (huni : ∀ r ∈ screen.cells, ∀ cell ∈ r,
      cell.wide_continuation = false → cellStyle d cell = S)
    (hlead : ∀ r ∈ screen.cells, ∀ cell ∈ r.take 1, cell.wide_continuation = false)
    (hcols : 0 < screen.cols) :
    ∀ (k : Nat), k ≤ screen.rows → ∀ (st : RenderState),
    st.spans = [] →
    (st.current_text = "" ∨ st.current_style = S) →
    ((List.range k).foldl (fun acc row => processRow d screen row acc) st).spans = [] ∧
    ((List.range k).foldl (fun acc row => processRow d screen row acc) st).current_text
      = st.current_text ++ screenTextUpTo screen k ∧
    (((List.range k).foldl (fun acc row => processRow d screen row acc) st).current_text = ""
      ∨ ((List.range k).foldl
          (fun acc row => processRow d screen row acc) st).current_style = S) := by
  have hall : ∀ r, r < screen.rows → ∀ c, c < screen.cols →
      ∃ cell, screen.cellAt r c = some cell ∧
        (cell.wide_continuation = false → cellStyle d cell = S) := by
    intro r hr c hc
    have hrlen : r < screen.cells.length := by
      rw [hwf.1]
      exact hr
    have hrow : ∃ rowl, screen.cells.get? r = some rowl := by
      rw [List.get?_eq_getElem?]
      exact ⟨_, List.getElem?_eq_getElem hrlen⟩
    obtain ⟨rowl, hrowl⟩ := hrow
    have hrmem : rowl ∈ screen.cells := List.get?_mem hrowl
    have hlen : rowl.length = screen.cols := hwf.2 rowl hrmem
    have hclen : c < rowl.length := by
      rw [hlen]
      exact hc
    have hcellr : ∃ cell, rowl.get? c = some cell := by
      rw [List.get?_eq_getElem?]
      exact ⟨_, List.getElem?_eq_getElem hclen⟩
    obtain ⟨cell, hcellr⟩ := hcellr
    have hcmem : cell ∈ rowl := List.get?_mem hcellr
    refine ⟨cell, ?_, huni rowl hrmem cell hcmem⟩
    unfold Screen.cellAt
    rw [hrowl]
    exact hcellr
  have hlead0 : ∀ r, r < screen.rows →
      ∃ cell0, screen.cellAt r 0 = some cell0 ∧ cell0.wide_continuation = false := by
    intro r hr
    have hrlen : r < screen.cells.length := by
      rw [hwf.1]
      exact hr
    have hrow : ∃ rowl, screen.cells.get? r = some rowl := by
      rw [List.get?_eq_getElem?]
      exact ⟨_, List.getElem?_eq_getElem hrlen⟩
    obtain ⟨rowl, hrowl⟩ := hrow
    have hrmem : rowl ∈ screen.cells := List.get?_mem hrowl
    have hlen : rowl.length = screen.cols := hwf.2 rowl hrmem
    cases hrl : rowl with
    | nil =>
      exfalso
      rw [hrl] at hlen
      simp at hlen
      omega
    | cons c0 rest =>
      refine ⟨c0, ?_, ?_⟩
      · unfold Screen.cellAt
        rw [hrowl, hrl]
        rfl
      · refine hlead rowl hrmem c0 ?_
        rw [hrl]
        simp
  intro k
  induction k with
  | zero =>
    intro _ st hspans hdisj
    exact ⟨hspans, (str_append_empty _).symm, hdisj⟩
  | succ n ih =>
    intro hk st hspans hdisj
    rw [List.range_succ, List.foldl_append, List.foldl_cons, List.foldl_nil]
    have ihres := ih (by omega) st hspans hdisj
    set st1 := (List.range n).foldl (fun acc row => processRow d screen row acc) st with hst1
    have hcf := cellFold_uniform screen d S n screen.cols st1
      (fun c hc => hall n (by omega) c hc) (fun _ => hlead0 n (by omega))
      ihres.1 ihres.2.2
    unfold processRow
    have hscreentext : screenTextUpTo screen (n + 1) =
        screenTextUpTo screen n ++ rowText screen n ++
          (if n < screen.rows - 1 then "\n" else "") := rfl
    split
    · refine ⟨hcf.1, ?_, ?_⟩
      · show _ ++ "\n" = _
        rw [hcf.2.1, ihres.2.1, hscreentext]
        unfold rowText
        rw [str_append_assoc, str_append_assoc]
        next hlt =>
        rw [if_pos hlt, str_append_assoc]
      · right
        show ((List.range screen.cols).foldl
          (fun acc col => processCell d acc (screen.cellAt n col)) st1).current_style = S
        exact hcf.2.2.1 hcols
    · refine ⟨hcf.1, ?_, hcf.2.2.2⟩
      rw [hcf.2.1, ihres.2.1, hscreentext]
      unfold rowText
      next hlt =>
      rw [if_neg hlt, str_append_empty, str_append_assoc]

/-- **C3.** For every well-formed screen snapshot in which all cells carry
one identical style `S` — the renderer skips wide-glyph continuation cells,
so only the styles of the cells it considers matter, and `hlead` records the
`vt100` structural fact that a continuation cell always directly follows its
wide lead cell within its row, hence never sits at column 0 —
`build_terminal_spans` produces exactly one styled run whose text equals the
full screen text row by row, with a newline between consecutive rows and none
after the last row; when that full text is empty the renderer instead emits
the single one-space run. -/
theorem claim_c3_uniform_render (screen : Screen) (d : Color) (S : TermSpanStyle)
    (hwf : screen.WF)
    (huni : ∀ r ∈ screen.cells, ∀ cell ∈ r,
      cell.wide_continuation = false → cellStyle d cell = S)
    (hlead : ∀ r ∈ screen.cells, ∀ cell ∈ r.take 1, cell.wide_continuation = false) :
    (screenText screen = "" → buildTerminalSpans screen d = [Span.plain " "]) ∧
    (screenText screen ≠ "" →
      ∃ sty, buildTerminalSpans screen d = [spanFromStyle (screenText screen) sty]) := by
  simp only [buildTerminalSpans]
  set stf := (List.range screen.rows).foldl
    (fun st row => processRow d screen row st)
    ⟨[], "", ⟨d, none, false, false, false⟩⟩ with hstf
  have hmain : stf.spans = [] ∧ stf.current_text = screenText screen := by
    rcases Nat.eq_zero_or_pos screen.cols with hc | hc
    · have h := rowFold_zero_cols screen d hc screen.rows
        ⟨[], "", ⟨d, none, false, false, false⟩⟩
      rw [hstf]
      exact ⟨h.1, by rw [h.2.1]; exact str_empty_append _⟩
    · have h := rowFold_uniform screen d S hwf huni hlead hc screen.rows (le_refl _)
        ⟨[], "", ⟨d, none, false, false, false⟩⟩ rfl (Or.inl rfl)
      rw [hstf]
      exact ⟨h.1, by rw [h.2.1]; exact str_empty_append _⟩
  constructor
  · intro hempty
    have htext : ¬stf.current_text ≠ "" := fun h => h (by rw [hmain.2]; exact hempty)
    rw [if_neg htext, hmain.1, if_pos rfl]
  · intro hne
    have htext : stf.current_text ≠ "" := by rw [hmain.2]; exact hne
    refine ⟨stf.current_style, ?_⟩
    rw [if_pos htext, hmain.1, hmain.2, List.nil_append,
      if_neg (show ¬[spanFromStyle (screenText screen) stf.current_style] = ([] : List Span)
        by simp)]

/-- Witness for **C3**: the concrete uniformly default-styled 2-by-2 screen
"ab" / "cd" renders to a single run. -/
theorem claim_c3_uniform_render_witness :
    ∃ sty, buildTerminalSpans screenAbCd defaultColorW =
      [spanFromStyle (screenText screenAbCd) sty] :=
  (claim_c3_uniform_render screenAbCd defaultColorW styleW (by decide)
    (by decide) (by decide)).2 (by decide)

end Termissh
